import Mathlib

/-!
Shallow embedding of the active-recall-bot core (src/db.ts, src/ai.ts and the
bot entry file): question store, vote ledger, per-user exposure (user_progress),
question selection, the two-stage generation pipeline's stage-2 filter, and the
CLEAN_RIGHT_ANSWERS reshuffle loop.  SQLite rows are modelled as lists of
records; the REAL rating expression is modelled exactly over ℚ.
-/

set_option autoImplicit false

namespace ARBot

/-- A row of the `questions` table (db.ts): id, study_key, question_text,
options (stored as JSON, modelled parsed), correct_index, thumbs_up,
thumbs_down.  `correct_index` is an unconstrained integer: the schema and
`saveQuestion` impose no range check. -/
structure QuestionRow where
  id : Nat
  study_key : String
  question_text : String
  options : List String
  correct_index : Int
  thumbs_up : Int
  thumbs_down : Int
  deriving DecidableEq, Repr

/-- A row of the `votes` table: PRIMARY KEY (user_id, question_id), vote is
1 for up, -1 for down. -/
structure VoteRow where
  user_id : Nat
  question_id : Nat
  vote : Int
  deriving DecidableEq, Repr

/-- A row of the `user_progress` table: PRIMARY KEY (user_id, question_id),
last_used_at a unix timestamp. -/
structure ProgressRow where
  user_id : Nat
  question_id : Nat
  last_used_at : Nat
  deriving DecidableEq, Repr

/-- The persistent state: the three tables the core claims touch. -/
structure DB where
  questions : List QuestionRow
  votes : List VoteRow
  progress : List ProgressRow
  deriving DecidableEq, Repr

/-- `SELECT vote FROM votes WHERE user_id = $uid AND question_id = $qid`
(first line of `addVote`). -/
def findVote (db : DB) (uid qid : Nat) : Option VoteRow :=
  db.votes.find? (fun v => v.user_id = uid ∧ v.question_id = qid)

/-- The stored polarity of a user's vote on a question, if any. -/
def getVote (db : DB) (uid qid : Nat) : Option Int :=
  (findVote db uid qid).map (fun v => v.vote)

/-- `UPDATE questions SET thumbs_up = thumbs_up + du, thumbs_down =
thumbs_down + dd WHERE id = $qid` — both counter updates of `addVote`
are instances of this. -/
def bumpCounters (qs : List QuestionRow) (qid : Nat) (du dd : Int) : List QuestionRow :=
  qs.map (fun q =>
    if q.id = qid then
      { q with thumbs_up := q.thumbs_up + du, thumbs_down := q.thumbs_down + dd }
    else q)

/-- `UPDATE votes SET vote = $vote WHERE user_id = $uid AND question_id = $qid`. -/
def setVote (vs : List VoteRow) (uid qid : Nat) (v : Int) : List VoteRow :=
  vs.map (fun r =>
    if r.user_id = uid ∧ r.question_id = qid then { r with vote := v } else r)

/-- `addVote(userId, questionId, isUpvote)` from db.ts: look up the existing
vote; same polarity ⇒ return unchanged; different polarity ⇒ overwrite the
vote row and move one count from the old counter to the new; no row ⇒ insert
the vote row and increment the matching counter.  Each branch is one SQLite
transaction, modelled as one functional update. -/
def addVote (db : DB) (userId questionId : Nat) (isUpvote : Bool) : DB :=
  match findVote db userId questionId with
  | some existing =>
    if existing.vote = (if isUpvote then (1 : Int) else -1) then db
    else
      { db with
        votes := setVote db.votes userId questionId (if isUpvote then 1 else -1),
        questions :=
          if isUpvote then bumpCounters db.questions questionId 1 (-1)
          else bumpCounters db.questions questionId (-1) 1 }
  | none =>
      { db with
        votes := db.votes ++ [VoteRow.mk userId questionId (if isUpvote then 1 else -1)],
        questions :=
          if isUpvote then bumpCounters db.questions questionId 1 0
          else bumpCounters db.questions questionId 0 1 }

/-- `getQuestionStats(questionId)` from db.ts: the (thumbs_up, thumbs_down)
pair of the question row, `{thumbs_up: 0, thumbs_down: 0}` when absent. -/
def getQuestionStats (db : DB) (qid : Nat) : Int × Int :=
  match db.questions.find? (fun q => q.id = qid) with
  | some q => (q.thumbs_up, q.thumbs_down)
  | none => (0, 0)

/-- The SQL expression `(CAST(thumbs_up AS REAL) + 1.0) / (CAST(thumbs_up AS
REAL) + CAST(thumbs_down AS REAL) + 2.0)` used both as `rating` in
`getQuestions` and as `weight` in `getRandomQuestion`, over ℚ. -/
def smoothedRating (up down : Int) : ℚ :=
  ((up : ℚ) + 1) / ((up : ℚ) + (down : ℚ) + 2)

/-- The `weight` column computed for a question row in `getRandomQuestion`
and the `rating` column of `getQuestions`. -/
def weight (q : QuestionRow) : ℚ :=
  smoothedRating q.thumbs_up q.thumbs_down

/-- The percentage shown by the bot's `vote:` callback handler:
`totalVotes > 0 ? Math.round((thumbs_up / totalVotes) * 100) : 0`. -/
def displayedPercent (up down : Int) : Int :=
  if up + down > 0 then round (((up : ℚ) / ((up : ℚ) + (down : ℚ))) * 100) else 0

/-- The id SQLite AUTOINCREMENT assigns on the next INSERT into `questions`:
one more than the largest id present (AUTOINCREMENT never reuses ids of live
rows). -/
def nextQuestionId (db : DB) : Nat :=
  (db.questions.map (fun q => q.id)).foldr max 0 + 1

/-- `saveQuestion(studyKey, question, options, correctIndex)` from db.ts: a
plain INSERT with counters defaulted to 0, RETURNING the fresh id.  No
validation of options or correctIndex is performed. -/
def saveQuestion (db : DB) (studyKey question : String) (options : List String)
    (correctIndex : Int) : DB × Nat :=
  let id := nextQuestionId db
  ({ db with questions :=
      db.questions ++ [⟨id, studyKey, question, options, correctIndex, 0, 0⟩] }, id)

/-- `clearQuestions(studyKey)` from db.ts: `DELETE FROM questions WHERE
study_key = $studyKey` — and nothing else; votes and user_progress rows are
left untouched. -/
def clearQuestions (db : DB) (studyKey : String) : DB :=
  { db with questions := db.questions.filter (fun q => ¬ q.study_key = studyKey) }

/-- `deleteQuestion(questionId)` from db.ts: deletes the question row and all
vote and user_progress rows keyed to it. -/
def deleteQuestion (db : DB) (qid : Nat) : DB :=
  { questions := db.questions.filter (fun q => ¬ q.id = qid),
    votes := db.votes.filter (fun v => ¬ v.question_id = qid),
    progress := db.progress.filter (fun p => ¬ p.question_id = qid) }

/-! ## Selection engine (`getRandomQuestion`) -/

/-- The rows of the first query of `getRandomQuestion`: questions under the
study key with no user_progress row for this user (`LEFT JOIN user_progress
… WHERE up.last_used_at IS NULL`). -/
def unexposed (db : DB) (studyKey : String) (uid : Nat) : List QuestionRow :=
  db.questions.filter (fun q =>
    q.study_key = studyKey ∧
    ¬ db.progress.any (fun p => p.user_id = uid ∧ p.question_id = q.id))

/-- `ORDER BY weight DESC, RANDOM() LIMIT 1`: row `a` precedes row `b` when
its weight is larger, or the weights tie and `a` drew the smaller random
value.  `rnd` models one draw of SQLite's RANDOM() per row (rows are keyed
by id). -/
def better (rnd : Nat → Nat) (a b : QuestionRow) : Prop :=
  weight b < weight a ∨ (weight a = weight b ∧ rnd a.id < rnd b.id)

instance (rnd : Nat → Nat) (a b : QuestionRow) : Decidable (better rnd a b) := by
  unfold better; infer_instance

/-- The head of the candidate rows ordered by (weight DESC, RANDOM()):
the maximal row under `better`. -/
def pick1 (rnd : Nat → Nat) : List QuestionRow → Option QuestionRow
  | [] => none
  | q :: rest =>
    match pick1 rnd rest with
    | none => some q
    | some p => if better rnd q p then some q else some p

/-- The join of the second (LRU) query of `getRandomQuestion`: pairs of a
question under the study key with this user's user_progress row for it. -/
def lruJoin (db : DB) (studyKey : String) (uid : Nat) :
    List (QuestionRow × ProgressRow) :=
  (db.questions.filter (fun q => q.study_key = studyKey)).flatMap (fun q =>
    (db.progress.filter (fun p => p.user_id = uid ∧ p.question_id = q.id)).map
      (fun p => (q, p)))

/-- `ORDER BY up.last_used_at ASC LIMIT 1` over the join: a pair with minimal
last_used_at (ties resolved to the earlier row, one arbitrary choice). -/
def minByUsed : List (QuestionRow × ProgressRow) → Option (QuestionRow × ProgressRow)
  | [] => none
  | x :: rest =>
    match minByUsed rest with
    | none => some x
    | some y => if x.2.last_used_at ≤ y.2.last_used_at then some x else some y

/-- The LRU fallback query of `getRandomQuestion`. -/
def pickLRU (db : DB) (studyKey : String) (uid : Nat) : Option QuestionRow :=
  (minByUsed (lruJoin db studyKey uid)).map (fun x => x.1)

/-- `INSERT INTO user_progress … ON CONFLICT(user_id, question_id) DO UPDATE
SET last_used_at = $now`. -/
def upsertProgress (ps : List ProgressRow) (uid qid now : Nat) : List ProgressRow :=
  if ps.any (fun p => p.user_id = uid ∧ p.question_id = qid) then
    ps.map (fun p =>
      if p.user_id = uid ∧ p.question_id = qid then { p with last_used_at := now }
      else p)
  else ps ++ [⟨uid, qid, now⟩]

/-- `getRandomQuestion(studyKey, userId)` from db.ts: first query picks an
unexposed question with maximal weight (random tie-break); if none, the LRU
query picks the question with the oldest last_used_at for this user; if still
none, any question under the key; on any hit the user's progress row for it
is upserted to `now` before returning.  `rnd` models the per-row RANDOM()
draws, `now` models `Date.now()`. -/
def getRandomQuestion (db : DB) (studyKey : String) (uid : Nat)
    (rnd : Nat → Nat) (now : Nat) : Option QuestionRow × DB :=
  let r1 := pick1 rnd (unexposed db studyKey uid)
  let r2 := match r1 with
    | some q => some q
    | none => pickLRU db studyKey uid
  let r3 := match r2 with
    | some q => some q
    | none => (db.questions.filter (fun q => q.study_key = studyKey)).head?
  match r3 with
  | some q => (some q, { db with progress := upsertProgress db.progress uid q.id now })
  | none => (none, db)

/-! ## Generation pipeline (src/ai.ts) -/

/-- A candidate produced by Stage 1 (`GeneratedQuestion` in ai.ts). -/
structure GeneratedQuestion where
  question : String
  options : List String
  correct_index : Int
  deriving DecidableEq, Repr

/-- The possible outcomes of the Stage-2 completion call as `filterBadQuestions`
distinguishes them: no content, a `JSON.parse` exception (caught), a parse
that is not an array, or an array of integers. -/
inductive Stage2Reply where
  | empty : Stage2Reply
  | unparseable : Stage2Reply
  | notList : Stage2Reply
  | list : List Int → Stage2Reply
  deriving DecidableEq, Repr

/-- JavaScript's `questions.filter((_, i) => goodIndices.includes(i))`:
keep the elements whose zero-based position occurs in `good`. -/
def filterByIncludedIndex {α : Type} (good : List Int) : Nat → List α → List α
  | _, [] => []
  | i, q :: rest =>
    if (i : Int) ∈ good then q :: filterByIncludedIndex good (i + 1) rest
    else filterByIncludedIndex good (i + 1) rest

/-- `filterBadQuestions(questions)` from ai.ts, with the completion reply made
explicit: empty input returns empty; empty/unparseable/non-array replies fall
back to the full input; an integer-array reply keeps exactly the questions
whose index occurs in it. -/
def filterBadQuestions (questions : List GeneratedQuestion) (reply : Stage2Reply) :
    List GeneratedQuestion :=
  if questions.isEmpty then []
  else match reply with
    | .empty => questions
    | .unparseable => questions
    | .notList => questions
    | .list goodIndices => filterByIncludedIndex goodIndices 0 questions

/-- The Stage-1 outcome of `generateQuestions` as the code distinguishes it:
no content or a parse exception (both yield `[]` via the catch), or a parsed
draft list. -/
inductive Stage1Reply where
  | failed : Stage1Reply
  | drafts : List GeneratedQuestion → Stage1Reply
  deriving DecidableEq, Repr

/-- `generateQuestions(text, studyKey)` from ai.ts with the two completion
replies made explicit: Stage-1 failure or an empty draft list returns `[]`
(fails closed); otherwise the draft list is passed to `filterBadQuestions`
with the Stage-2 reply. -/
def generateQuestions (stage1 : Stage1Reply) (stage2 : Stage2Reply) :
    List GeneratedQuestion :=
  match stage1 with
  | .failed => []
  | .drafts qs => if qs.isEmpty then [] else filterBadQuestions qs stage2

/-! ## Caller-side persistence of candidates (message handler of the bot file) -/

/-- The persistence loop of the bot's message handler: `for (const q of
questions) db.saveQuestion(studyKey, q.question, q.options, q.correct_index)`.
No structural validation of any kind is performed on the candidates. -/
def persistCandidates (db : DB) (studyKey : String) (qs : List GeneratedQuestion) : DB :=
  qs.foldl (fun d q => (saveQuestion d studyKey q.question q.options q.correct_index).1) db

/-! ## CLEAN_RIGHT_ANSWERS reshuffle (bot entry file) -/

/-- `[options[i], options[j]] = [options[j], options[i]]`: swap two positions
of a list (identity when either index is out of range). -/
def listSwap {α : Type} (l : List α) (i j : Nat) : List α :=
  match l.get? i, l.get? j with
  | some a, some b => (l.set i b).set j a
  | _, _ => l

/-- The Fisher-Yates loop `for (let i = n-1; i > 0; i--) { j =
Math.floor(Math.random() * (i+1)); swap i j }`, processing indices `i` down
to 1; `rand i % (i+1)` models the draw `j ∈ [0, i]`. -/
def fyLoop {α : Type} (rand : Nat → Nat) : Nat → List α → List α
  | 0, l => l
  | i + 1, l => fyLoop rand i (listSwap l (i + 1) (rand (i + 1) % (i + 2)))

/-- The full Fisher-Yates shuffle of the reshuffle routine. -/
def fisherYates {α : Type} (l : List α) (rand : Nat → Nat) : List α :=
  fyLoop rand (l.length - 1) l

/-- `options.indexOf(x)`: the zero-based position of the first occurrence,
-1 when absent. -/
def jsIndexOf (l : List String) (x : String) : Int :=
  match l with
  | [] => -1
  | a :: t =>
    if a = x then 0
    else if jsIndexOf t x = -1 then -1 else jsIndexOf t x + 1

/-- `options[i]` in JavaScript: `undefined` (none) outside the range. -/
def jsGet (l : List String) (i : Int) : Option String :=
  if i < 0 then none else l.get? i.toNat

/-- `updateQuestionOptions(id, options, correctIndex)` from db.ts: one UPDATE
statement setting both columns of the row together. -/
def updateQuestionOptions (db : DB) (qid : Nat) (options : List String)
    (correctIndex : Int) : DB :=
  { db with questions := db.questions.map (fun q =>
      if q.id = qid then { q with options := options, correct_index := correctIndex }
      else q) }

/-- What can go wrong for one question inside the reshuffle loop, as the code
distinguishes the cases: `JSON.parse(q.options)` throws (caught per-question),
`db.updateQuestionOptions` throws (only the batch-level catch is above it), or
the image regeneration throws (caught per-question). -/
inductive ReshuffleFault where
  | ok : ReshuffleFault
  | parseFail : ReshuffleFault
  | persistFail : ReshuffleFault
  | renderFail : ReshuffleFault
  deriving DecidableEq, Repr

/-- The body of the reshuffle loop for one question `q`, given the stored row:
capture `options[correct_index]`, shuffle, locate the captured text, skip when
parsing failed or the text is lost, otherwise update the row.  Returns the
new DB and `true` when the loop continues to the next question (`false` only
when `updateQuestionOptions` threw, which escapes to the batch-level catch). -/
def reshuffleStep (db : DB) (q : QuestionRow) (fault : ReshuffleFault)
    (rand : Nat → Nat) : DB × Bool :=
  if fault = .parseFail then (db, true)
  else
    match jsGet q.options q.correct_index with
    | none =>
      -- correctAnswer is undefined; indexOf(undefined) = -1 ⇒ logged and skipped
      (db, true)
    | some correctAnswer =>
      let shuffled := fisherYates q.options rand
      let newCorrectIndex := jsIndexOf shuffled correctAnswer
      if newCorrectIndex = -1 then (db, true)
      else if fault = .persistFail then (db, false)
      else (updateQuestionOptions db q.id shuffled newCorrectIndex, true)

/-- The CLEAN_RIGHT_ANSWERS loop over a list of question rows (as returned by
`getAllQuestionsRaw`).  `fault` assigns each question id its failure mode and
`rand` its shuffle randomness.  A persistence throw aborts the remainder of
the batch (the enclosing try/catch is outside the loop); every other failure
is logged and the loop continues. -/
def reshuffleAll (db : DB) (qs : List QuestionRow) (fault : Nat → ReshuffleFault)
    (rand : Nat → Nat → Nat) : DB :=
  match qs with
  | [] => db
  | q :: rest =>
    match reshuffleStep db q (fault q.id) (rand q.id) with
    | (db', true) => reshuffleAll db' rest fault rand
    | (db', false) => db'

/-! ## Lemmas about the vote ledger -/

/-- The polarity value `addVote` stores for an up/down vote. -/
def voteOf (b : Bool) : Int := if b then 1 else -1

/-- Net contribution of a stored vote to thumbs_up. -/
def upDelta (b : Bool) : Int := if b then 1 else 0

/-- Net contribution of a stored vote to thumbs_down. -/
def downDelta (b : Bool) : Int := if b then 0 else 1

lemma find?_bumpCounters (qs : List QuestionRow) (qid : Nat) (du dd : Int) :
    (bumpCounters qs qid du dd).find? (fun q => q.id = qid)
      = (qs.find? (fun q => q.id = qid)).map
          (fun q => { q with thumbs_up := q.thumbs_up + du,
                             thumbs_down := q.thumbs_down + dd }) := by
  induction qs with
  | nil => rfl
  | cons q rest ih =>
    by_cases h : q.id = qid
    · simp [bumpCounters, List.find?, h]
    · simpa [bumpCounters, List.find?, h] using ih

lemma find?_setVote (vs : List VoteRow) (u qid : Nat) (v : Int) :
    (setVote vs u qid v).find? (fun r => r.user_id = u ∧ r.question_id = qid)
      = (vs.find? (fun r => r.user_id = u ∧ r.question_id = qid)).map
          (fun r => { r with vote := v }) := by
  induction vs with
  | nil => rfl
  | cons r rest ih =>
    by_cases h : r.user_id = u ∧ r.question_id = qid
    · simp [setVote, List.find?, h]
    · simpa [setVote, List.find?, h] using ih

lemma find?_votes_append_new (vs : List VoteRow) (u qid : Nat) (v : Int)
    (h : vs.find? (fun r => r.user_id = u ∧ r.question_id = qid) = none) :
    ((vs ++ [VoteRow.mk u qid v]).find?
        (fun r => r.user_id = u ∧ r.question_id = qid)) = some (VoteRow.mk u qid v) := by
  induction vs with
  | nil =>
    rw [List.nil_append, List.find?_cons_of_pos _ (by simp)]
  | cons r rest ih =>
    rw [List.cons_append]
    by_cases hr : r.user_id = u ∧ r.question_id = qid
    · rw [List.find?_cons_of_pos _ (by simpa using hr)] at h
      exact absurd h (by simp)
    · rw [List.find?_cons_of_neg _ (by simpa using hr)] at h
      rw [List.find?_cons_of_neg _ (by simpa using hr)]
      exact ih h

/-- In every branch, `addVote` leaves the user's stored vote on the question
equal to the polarity just applied. -/
lemma getVote_addVote (db : DB) (u qid : Nat) (b : Bool) :
    getVote (addVote db u qid b) u qid = some (voteOf b) := by
  cases hf : findVote db u qid with
  | none =>
    have hf' : db.votes.find? (fun r => r.user_id = u ∧ r.question_id = qid) = none := hf
    unfold getVote findVote
    simp only [addVote, hf]
    rw [find?_votes_append_new db.votes u qid _ hf']
    simp [voteOf]
  | some r =>
    have hf' : db.votes.find? (fun r => r.user_id = u ∧ r.question_id = qid) = some r := hf
    by_cases hv : r.vote = (if b then (1 : Int) else -1)
    · unfold getVote findVote
      simp only [addVote, hf, hv, if_pos]
      rw [hf']
      simp [voteOf, hv]
    · unfold getVote findVote
      simp only [addVote, hf, hv, if_neg, if_false]
      rw [find?_setVote, hf']
      simp [voteOf]

lemma getQuestionStats_of_find? (db : DB) (qid : Nat) (q0 : QuestionRow)
    (h : db.questions.find? (fun q => q.id = qid) = some q0) :
    getQuestionStats db qid = (q0.thumbs_up, q0.thumbs_down) := by
  unfold getQuestionStats
  rw [h]

lemma getQuestionStats_bump (db : DB) (qid : Nat) (du dd : Int) (q0 : QuestionRow)
    (h : db.questions.find? (fun q => q.id = qid) = some q0) :
    getQuestionStats { db with questions := bumpCounters db.questions qid du dd } qid
      = (q0.thumbs_up + du, q0.thumbs_down + dd) := by
  unfold getQuestionStats
  show (match (bumpCounters db.questions qid du dd).find? (fun q => q.id = qid) with
    | some q => (q.thumbs_up, q.thumbs_down)
    | none => ((0 : Int), (0 : Int))) = _
  rw [find?_bumpCounters, h]
  simp

lemma addVote_same_eq (db : DB) (u qid : Nat) (b : Bool) (r : VoteRow)
    (hf : findVote db u qid = some r)
    (hv : r.vote = (if b then (1 : Int) else -1)) :
    addVote db u qid b = db := by
  simp [addVote, hf, hv]

/-- Inserting a fresh vote: stored polarity becomes the new vote and the
matching counter gains exactly one. -/
lemma addVote_none_step (db : DB) (u qid : Nat) (b : Bool) (q0 : QuestionRow)
    (hv : getVote db u qid = none)
    (hq : db.questions.find? (fun q => q.id = qid) = some q0) :
    ∃ q2, (addVote db u qid b).questions.find? (fun q => q.id = qid) = some q2 ∧
      q2.thumbs_up = q0.thumbs_up + upDelta b ∧
      q2.thumbs_down = q0.thumbs_down + downDelta b := by
  have hf : findVote db u qid = none := by
    unfold getVote at hv
    cases hfv : findVote db u qid with
    | none => rfl
    | some r => rw [hfv] at hv; exact absurd hv (by simp)
  cases b with
  | true =>
    refine ⟨{ q0 with
        thumbs_up := q0.thumbs_up + upDelta true
        thumbs_down := q0.thumbs_down + downDelta true }, ?_, rfl, rfl⟩
    show (addVote db u qid true).questions.find? (fun q => q.id = qid) = _
    simp only [addVote, hf, if_true]
    rw [find?_bumpCounters, hq]
    simp [upDelta, downDelta]
  | false =>
    refine ⟨{ q0 with
        thumbs_up := q0.thumbs_up + upDelta false
        thumbs_down := q0.thumbs_down + downDelta false }, ?_, rfl, rfl⟩
    show (addVote db u qid false).questions.find? (fun q => q.id = qid) = _
    simp only [addVote, hf]
    rw [if_neg (by simp), find?_bumpCounters, hq]
    simp [upDelta, downDelta]

/-- Applying a vote onto an existing stored vote: the state afterwards carries
the new polarity's counter deltas relative to the original counters. -/
lemma addVote_voted_step (db : DB) (u qid : Nat) (bPrev b : Bool) (q0 q1 : QuestionRow)
    (hv : getVote db u qid = some (voteOf bPrev))
    (hq : db.questions.find? (fun q => q.id = qid) = some q1)
    (hup : q1.thumbs_up = q0.thumbs_up + upDelta bPrev)
    (hdown : q1.thumbs_down = q0.thumbs_down + downDelta bPrev) :
    ∃ q2, (addVote db u qid b).questions.find? (fun q => q.id = qid) = some q2 ∧
      q2.thumbs_up = q0.thumbs_up + upDelta b ∧
      q2.thumbs_down = q0.thumbs_down + downDelta b := by
  obtain ⟨r, hf, hrv⟩ : ∃ r, findVote db u qid = some r ∧ r.vote = voteOf bPrev := by
    unfold getVote at hv
    cases hfv : findVote db u qid with
    | none => rw [hfv] at hv; exact absurd hv (by simp)
    | some r => rw [hfv] at hv; exact ⟨r, rfl, by simpa using hv⟩
  by_cases hsame : bPrev = b
  · subst hsame
    rw [addVote_same_eq db u qid bPrev r hf (by simpa [voteOf] using hrv)]
    exact ⟨q1, hq, hup, hdown⟩
  · have hdiff : ¬ r.vote = (if b then (1 : Int) else -1) := by
      rw [hrv]
      cases b <;> cases bPrev <;> simp_all [voteOf]
    have hquestions : (addVote db u qid b).questions
        = if b then bumpCounters db.questions qid 1 (-1)
          else bumpCounters db.questions qid (-1) 1 := by
      simp [addVote, hf, hdiff]
    cases b with
    | true =>
      refine ⟨{ q1 with
          thumbs_up := q1.thumbs_up + 1
          thumbs_down := q1.thumbs_down + (-1) }, ?_, ?_, ?_⟩
      · rw [hquestions]
        rw [if_pos rfl, find?_bumpCounters, hq]
        rfl
      · have hbp : bPrev = false := by cases bPrev <;> simp_all
        subst hbp
        show q1.thumbs_up + 1 = _
        rw [hup]
        simp [upDelta]
      · have hbp : bPrev = false := by cases bPrev <;> simp_all
        subst hbp
        show q1.thumbs_down + (-1) = _
        rw [hdown]
        simp [downDelta]
    | false =>
      refine ⟨{ q1 with
          thumbs_up := q1.thumbs_up + (-1)
          thumbs_down := q1.thumbs_down + 1 }, ?_, ?_, ?_⟩
      · rw [hquestions]
        rw [if_neg (by simp), find?_bumpCounters, hq]
        rfl
      · have hbp : bPrev = true := by cases bPrev <;> simp_all
        subst hbp
        show q1.thumbs_up + (-1) = _
        rw [hup]
        simp [upDelta]
      · have hbp : bPrev = true := by cases bPrev <;> simp_all
        subst hbp
        show q1.thumbs_down + 1 = _
        rw [hdown]
        simp [downDelta]

lemma getQuestionStats_congr (db1 db2 : DB) (h : db1.questions = db2.questions)
    (qid : Nat) : getQuestionStats db1 qid = getQuestionStats db2 qid := by
  unfold getQuestionStats
  rw [h]

lemma addVote_flip_questions (db : DB) (u qid : Nat) (b : Bool) (r : VoteRow)
    (hf : findVote db u qid = some r)
    (hdiff : ¬ r.vote = (if b then (1 : Int) else -1)) :
    (addVote db u qid b).questions
      = bumpCounters db.questions qid (if b then 1 else -1) (if b then -1 else 1) := by
  cases b with
  | false =>
    have hd : ¬ r.vote = (-1 : Int) := by simpa using hdiff
    simp [addVote, hf, hd]
  | true =>
    have hd : ¬ r.vote = (1 : Int) := by simpa using hdiff
    simp [addVote, hf, hd]

lemma getQuestionStats_of_bump_questions (db' db : DB) (qid : Nat) (du dd : Int)
    (q0 : QuestionRow)
    (hqs : db'.questions = bumpCounters db.questions qid du dd)
    (h : db.questions.find? (fun q => q.id = qid) = some q0) :
    getQuestionStats db' qid = (q0.thumbs_up + du, q0.thumbs_down + dd) := by
  unfold getQuestionStats
  rw [hqs, find?_bumpCounters, h]
  simp

lemma getLastD_cons_bool (l : List Bool) (b1 b : Bool) :
    (b1 :: l).getLastD b = l.getLastD b1 := by
  cases l <;> simp [List.getLastD]

/-- A sequence of `addVote` calls by one user on one question. -/
def applyVotes (db : DB) (u qid : Nat) (bs : List Bool) : DB :=
  bs.foldl (fun d b => addVote d u qid b) db

lemma applyVotes_voted_stats (u qid : Nat) (q0 : QuestionRow) :
    ∀ (bs : List Bool) (db : DB) (b : Bool),
    getVote db u qid = some (voteOf b) →
    (∃ q1, db.questions.find? (fun q => q.id = qid) = some q1 ∧
        q1.thumbs_up = q0.thumbs_up + upDelta b ∧
        q1.thumbs_down = q0.thumbs_down + downDelta b) →
    getVote (applyVotes db u qid bs) u qid = some (voteOf (bs.getLastD b)) ∧
    ∃ q2, (applyVotes db u qid bs).questions.find? (fun q => q.id = qid) = some q2 ∧
      q2.thumbs_up = q0.thumbs_up + upDelta (bs.getLastD b) ∧
      q2.thumbs_down = q0.thumbs_down + downDelta (bs.getLastD b)
  | [], db, b, hv, hq => by
      simpa [applyVotes] using ⟨hv, hq⟩
  | b1 :: rest, db, b, hv, hq => by
      obtain ⟨q1, hq1, hup, hdown⟩ := hq
      have step := addVote_voted_step db u qid b b1 q0 q1 hv hq1 hup hdown
      have hv' := getVote_addVote db u qid b1
      have ih := applyVotes_voted_stats u qid q0 rest (addVote db u qid b1) b1 hv' step
      rw [getLastD_cons_bool]
      simpa [applyVotes] using ih

/-- C1: `addVote(u,q,p)` is one transition on (votes, counters): no prior vote
⇒ matching counter +1 and vote stored; same prior polarity ⇒ state unchanged
(and a repeated identical vote is a no-op on the whole state); opposite prior
polarity ⇒ old counter −1, new counter +1, polarity overwritten; and the net
effect of any sequence of votes by one user is exactly the ±1 of the last
vote, never accumulated. -/
theorem addVote_transition (db : DB) (u qid : Nat) (b : Bool) (q0 : QuestionRow)
    (hq : db.questions.find? (fun q => q.id = qid) = some q0) :
    (getVote db u qid = none →
      getQuestionStats (addVote db u qid b) qid
        = (q0.thumbs_up + upDelta b, q0.thumbs_down + downDelta b) ∧
      getVote (addVote db u qid b) u qid = some (voteOf b)) ∧
    (getVote db u qid = some (voteOf b) → addVote db u qid b = db) ∧
    (getVote db u qid = some (voteOf (!b)) →
      getQuestionStats (addVote db u qid b) qid
        = (q0.thumbs_up + (if b then 1 else -1),
           q0.thumbs_down + (if b then -1 else 1)) ∧
      getVote (addVote db u qid b) u qid = some (voteOf b)) ∧
    addVote (addVote db u qid b) u qid b = addVote db u qid b ∧
    (∀ (b0 : Bool) (bs : List Bool), getVote db u qid = none →
      getQuestionStats (applyVotes db u qid (b0 :: bs)) qid
        = (q0.thumbs_up + upDelta (bs.getLastD b0),
           q0.thumbs_down + downDelta (bs.getLastD b0))) := by
  refine ⟨?_, ?_, ?_, ?_, ?_⟩
  · intro hv
    obtain ⟨q2, hq2, hup, hdown⟩ := addVote_none_step db u qid b q0 hv hq
    refine ⟨?_, getVote_addVote db u qid b⟩
    rw [getQuestionStats_of_find? _ qid q2 hq2, hup, hdown]
  · intro hv
    obtain ⟨r, hf, hrv⟩ : ∃ r, findVote db u qid = some r ∧ r.vote = voteOf b := by
      unfold getVote at hv
      cases hfv : findVote db u qid with
      | none => rw [hfv] at hv; exact absurd hv (by simp)
      | some r => rw [hfv] at hv; exact ⟨r, rfl, by simpa using hv⟩
    exact addVote_same_eq db u qid b r hf (by simpa [voteOf] using hrv)
  · intro hv
    obtain ⟨r, hf, hrv⟩ : ∃ r, findVote db u qid = some r ∧ r.vote = voteOf (!b) := by
      unfold getVote at hv
      cases hfv : findVote db u qid with
      | none => rw [hfv] at hv; exact absurd hv (by simp)
      | some r => rw [hfv] at hv; exact ⟨r, rfl, by simpa using hv⟩
    have hdiff : ¬ r.vote = (if b then (1 : Int) else -1) := by
      rw [hrv]; cases b <;> simp [voteOf]
    refine ⟨?_, getVote_addVote db u qid b⟩
    have hqs := addVote_flip_questions db u qid b r hf hdiff
    exact getQuestionStats_of_bump_questions (addVote db u qid b) db qid _ _ q0 hqs hq
  · obtain ⟨r', hf', hrv'⟩ : ∃ r, findVote (addVote db u qid b) u qid = some r ∧
        r.vote = voteOf b := by
      have hv := getVote_addVote db u qid b
      unfold getVote at hv
      cases hfv : findVote (addVote db u qid b) u qid with
      | none => rw [hfv] at hv; exact absurd hv (by simp)
      | some r => rw [hfv] at hv; exact ⟨r, rfl, by simpa using hv⟩
    exact addVote_same_eq _ u qid b r' hf' (by simpa [voteOf] using hrv')
  · intro b0 bs hv
    have step := addVote_none_step db u qid b0 q0 hv hq
    have hv' := getVote_addVote db u qid b0
    have main := applyVotes_voted_stats u qid q0 bs (addVote db u qid b0) b0 hv' step
    obtain ⟨-, q2, hq2, hup, hdown⟩ := main
    have happ : applyVotes db u qid (b0 :: bs) = applyVotes (addVote db u qid b0) u qid bs := by
      simp [applyVotes]
    rw [happ, getQuestionStats_of_find? _ qid q2 hq2, hup, hdown]

/-- A concrete question row for witnesses: one fresh question, no votes. -/
def qRowW : QuestionRow :=
  { id := 1, study_key := "k", question_text := "t", options := ["a", "b"],
    correct_index := 0, thumbs_up := 0, thumbs_down := 0 }

/-- A concrete one-question store for witnesses. -/
def dbW : DB := { questions := [qRowW], votes := [], progress := [] }

/-- Witness for C1 at a concrete input: user 7 upvotes question 1 of `dbW`. -/
theorem addVote_transition_witness :
    getQuestionStats (addVote dbW 7 1 true) 1
      = (qRowW.thumbs_up + upDelta true, qRowW.thumbs_down + downDelta true) ∧
    getVote (addVote dbW 7 1 true) 7 1 = some (voteOf true) :=
  (addVote_transition dbW 7 1 true qRowW (by rfl)).1 (by rfl)

/-- C2 counterexample: with zero votes the percentage the vote callback
surfaces is 0, while the smoothed rating (0+1)/(0+0+2) is 0.5 (i.e. 50%):
the surfaced percentage is not the claimed Laplace-smoothed value. -/
theorem displayedPercent_zero_votes_not_smoothed :
    displayedPercent 0 0 = 0 ∧ smoothedRating 0 0 = 1 / 2 ∧
    round (smoothedRating 0 0 * 100) = 50 ∧ displayedPercent 0 0 ≠ 50 := by
  refine ⟨by norm_num [displayedPercent], by norm_num [smoothedRating], ?_, by norm_num [displayedPercent]⟩
  norm_num [smoothedRating]

/-- C2 (amended): the rating computed for listing (`getQuestions`) and
selection (`getRandomQuestion`) is (a+1)/(a+r+2): strictly between 0 and 1
for all counts ≥ 0, 0.5 at zero votes, strictly increasing in approvals and
strictly decreasing in rejections, with a never-zero denominator; but the
percentage surfaced by the vote callback is the unsmoothed round(100·a/(a+r)),
0 when no votes exist. -/
theorem smoothedRating_spec :
    (∀ a r : ℕ, 0 < smoothedRating a r ∧ smoothedRating a r < 1) ∧
    smoothedRating 0 0 = 1 / 2 ∧
    (∀ a r : ℕ, smoothedRating a r < smoothedRating (a + 1) r) ∧
    (∀ a r : ℕ, smoothedRating a (r + 1) < smoothedRating a r) ∧
    (∀ q : QuestionRow, weight q = smoothedRating q.thumbs_up q.thumbs_down) ∧
    displayedPercent 0 0 = 0 := by
  refine ⟨?_, by norm_num [smoothedRating], ?_, ?_, fun q => rfl, by norm_num [displayedPercent]⟩
  · intro a r
    unfold smoothedRating
    push_cast
    constructor
    · positivity
    · rw [div_lt_one (by positivity)]
      linarith [Nat.cast_nonneg (α := ℚ) r]
  · intro a r
    unfold smoothedRating
    push_cast
    rw [div_lt_div_iff (by positivity) (by positivity)]
    nlinarith [Nat.cast_nonneg (α := ℚ) a, Nat.cast_nonneg (α := ℚ) r]
  · intro a r
    unfold smoothedRating
    push_cast
    rw [div_lt_div_iff (by positivity) (by positivity)]
    nlinarith [Nat.cast_nonneg (α := ℚ) a, Nat.cast_nonneg (α := ℚ) r]

/-! ## Stage-2 fail-open behaviour (C5) -/

/-- The spec's description of the Stage-2 output, for the refinement
comparison: the drafts whose zero-based position occurs in the index list,
in their original draft order, out-of-range indices ignored. -/
def specFilter {α : Type} (qs : List α) (good : List Int) : List α :=
  ((qs.enum).filter (fun p => (p.1 : Int) ∈ good)).map Prod.snd

lemma filterByIncludedIndex_eq_enumFrom {α : Type} (good : List Int) :
    ∀ (qs : List α) (i : Nat),
    filterByIncludedIndex good i qs
      = ((List.enumFrom i qs).filter (fun p => (p.1 : Int) ∈ good)).map Prod.snd
  | [], _ => rfl
  | q :: rest, i => by
    by_cases hm : (i : Int) ∈ good
    · simp only [filterByIncludedIndex, hm, if_true, List.enumFrom, List.filter]
      rw [filterByIncludedIndex_eq_enumFrom good rest (i + 1)]
      simp [hm]
    · simp only [filterByIncludedIndex, hm, if_false, List.enumFrom, List.filter]
      rw [filterByIncludedIndex_eq_enumFrom good rest (i + 1)]
      simp [hm]

/-- C5: for a non-empty draft list, an empty, unparseable or non-list Stage-2
reply makes `generateQuestions` return the Stage-1 drafts exactly, unfiltered
and in order (fail open); an integer-list reply makes it return exactly the
drafts whose positions occur in the list, in draft order, out-of-range
indices ignored (the spec-side `specFilter`). -/
theorem generateQuestions_stage2_failopen (qs : List GeneratedQuestion) (h : qs ≠ []) :
    generateQuestions (.drafts qs) .empty = qs ∧
    generateQuestions (.drafts qs) .unparseable = qs ∧
    generateQuestions (.drafts qs) .notList = qs ∧
    (∀ good : List Int, generateQuestions (.drafts qs) (.list good) = specFilter qs good) := by
  have hne : qs.isEmpty = false := by
    cases qs with
    | nil => exact absurd rfl h
    | cons a l => rfl
  refine ⟨?_, ?_, ?_, ?_⟩
  · simp [generateQuestions, filterBadQuestions, hne]
  · simp [generateQuestions, filterBadQuestions, hne]
  · simp [generateQuestions, filterBadQuestions, hne]
  · intro good
    simp only [generateQuestions, filterBadQuestions, hne, Bool.false_eq_true,
      if_false, specFilter]
    rw [filterByIncludedIndex_eq_enumFrom good qs 0]
    rfl

/-- Concrete draft candidates for witnesses. -/
def gqW1 : GeneratedQuestion := { question := "q1", options := ["a", "b"], correct_index := 0 }

/-- A second concrete draft candidate. -/
def gqW2 : GeneratedQuestion := { question := "q2", options := ["c", "d"], correct_index := 1 }

/-- Witness for C5: two drafts, Stage-2 keeps index 0, ignores 5 and -1. -/
theorem generateQuestions_stage2_failopen_witness :
    generateQuestions (.drafts [gqW1, gqW2]) (.list [0, 5, -1])
      = specFilter [gqW1, gqW2] [0, 5, -1] :=
  (generateQuestions_stage2_failopen [gqW1, gqW2] (by simp)).2.2.2 [0, 5, -1]

/-! ## Fisher-Yates permutation lemmas (C6) -/

lemma get_cons_set_perm {α : Type} :
    ∀ (t : List α) (k : Nat) (hk : k < t.length) (a : α),
    List.Perm ((t.get ⟨k, hk⟩) :: t.set k a) (a :: t)
  | b :: s, 0, _, a => List.Perm.swap a b s
  | b :: s, m + 1, hk, a => by
    have hm : m < s.length := Nat.lt_of_succ_lt_succ hk
    have h1 : (b :: s).get ⟨m + 1, hk⟩ :: (b :: s).set (m + 1) a
        = s.get ⟨m, hm⟩ :: b :: s.set m a := rfl
    rw [h1]
    exact ((List.Perm.swap _ _ _).trans
      (((get_cons_set_perm s m hm a).cons b).trans (List.Perm.swap _ _ _)))

lemma set_set_swap_perm {α : Type} :
    ∀ (l : List α) (i j : Nat) (hi : i < l.length) (hj : j < l.length),
    List.Perm ((l.set i (l.get ⟨j, hj⟩)).set j (l.get ⟨i, hi⟩)) l
  | a :: t, 0, 0, _, _ => by
    rw [List.set_set]
    exact List.Perm.refl _
  | a :: t, 0, k + 1, hi, hj => by
    have hk : k < t.length := Nat.lt_of_succ_lt_succ hj
    have h1 : ((a :: t).set 0 ((a :: t).get ⟨k + 1, hj⟩)).set (k + 1) ((a :: t).get ⟨0, hi⟩)
        = t.get ⟨k, hk⟩ :: t.set k a := rfl
    rw [h1]
    exact get_cons_set_perm t k hk a
  | a :: t, m + 1, 0, hi, hj => by
    have hm : m < t.length := Nat.lt_of_succ_lt_succ hi
    have h1 : ((a :: t).set (m + 1) ((a :: t).get ⟨0, hj⟩)).set 0 ((a :: t).get ⟨m + 1, hi⟩)
        = t.get ⟨m, hm⟩ :: t.set m a := rfl
    rw [h1]
    exact get_cons_set_perm t m hm a
  | a :: t, m + 1, k + 1, hi, hj => by
    have hm : m < t.length := Nat.lt_of_succ_lt_succ hi
    have hk : k < t.length := Nat.lt_of_succ_lt_succ hj
    exact (set_set_swap_perm t m k hm hk).cons a

lemma listSwap_perm {α : Type} (l : List α) (i j : Nat) : List.Perm (listSwap l i j) l := by
  unfold listSwap
  cases hi : l.get? i with
  | none => exact List.Perm.refl l
  | some a =>
    cases hj : l.get? j with
    | none => exact List.Perm.refl l
    | some b =>
      have hi' : i < l.length := List.get?_eq_some.mp hi |>.1
      have hj' : j < l.length := List.get?_eq_some.mp hj |>.1
      have ha : l.get ⟨i, hi'⟩ = a := (List.get?_eq_some.mp hi).2
      have hb : l.get ⟨j, hj'⟩ = b := (List.get?_eq_some.mp hj).2
      rw [← ha, ← hb]
      exact set_set_swap_perm l i j hi' hj'

lemma fyLoop_perm {α : Type} (rand : Nat → Nat) :
    ∀ (i : Nat) (l : List α), List.Perm (fyLoop rand i l) l
  | 0, l => List.Perm.refl l
  | i + 1, l =>
    (fyLoop_perm rand i (listSwap l (i + 1) (rand (i + 1) % (i + 2)))).trans
      (listSwap_perm l (i + 1) (rand (i + 1) % (i + 2)))

/-- The Fisher-Yates shuffle is a permutation of its input. -/
lemma fisherYates_perm {α : Type} (l : List α) (rand : Nat → Nat) :
    List.Perm (fisherYates l rand) l :=
  fyLoop_perm rand (l.length - 1) l

lemma jsIndexOf_of_mem (l : List String) (x : String) (hx : x ∈ l) :
    ∃ k : Nat, jsIndexOf l x = (k : Int) ∧ l.get? k = some x := by
  induction l with
  | nil => cases hx
  | cons a t ih =>
    by_cases ha : a = x
    · exact ⟨0, by simp [jsIndexOf, ha], by simp [ha]⟩
    · have hxt : x ∈ t := by
        cases hx with
        | head => exact absurd rfl ha
        | tail _ h => exact h
      obtain ⟨k, hk, hget⟩ := ih hxt
      refine ⟨k + 1, ?_, by simpa using hget⟩
      have hne : ¬ jsIndexOf t x = -1 := by
        rw [hk]
        omega
      simp [jsIndexOf, ha, hne, hk]

/-- C6: for every question processed by the reshuffle loop, the shuffled
option list is a permutation of the old one (the multiset of option texts is
preserved); the recomputed correct index is the position of the first
occurrence of the captured correct text, which therefore points at that same
text value; and on success the new options and new index are persisted by the
single `updateQuestionOptions` call. -/
theorem reshuffle_preserves_options (options : List String) (ci : Int)
    (rand : Nat → Nat) (correct : String) (hget : jsGet options ci = some correct) :
    ((fisherYates options rand : Multiset String) = (options : Multiset String)) ∧
    (∃ k : Nat, jsIndexOf (fisherYates options rand) correct = (k : Int) ∧
      (fisherYates options rand).get? k = some correct) ∧
    (∀ (db : DB) (q : QuestionRow), q.options = options → q.correct_index = ci →
      reshuffleStep db q .ok rand
        = (updateQuestionOptions db q.id (fisherYates options rand)
            (jsIndexOf (fisherYates options rand) correct), true)) := by
  have hperm := fisherYates_perm options rand
  have hmem : correct ∈ options := by
    unfold jsGet at hget
    by_cases hneg : ci < 0
    · rw [if_pos hneg] at hget
      exact absurd hget (by simp)
    · rw [if_neg hneg] at hget
      exact List.get?_mem hget
  have hmem' : correct ∈ fisherYates options rand := hperm.mem_iff.mpr hmem
  obtain ⟨k, hk, hgetk⟩ := jsIndexOf_of_mem _ correct hmem'
  have hne : ¬ jsIndexOf (fisherYates options rand) correct = -1 := by
    rw [hk]
    omega
  refine ⟨Multiset.coe_eq_coe.mpr hperm, ⟨k, hk, hgetk⟩, ?_⟩
  intro db q hopts hci
  unfold reshuffleStep
  rw [if_neg (by simp), hopts, hci, hget]
  simp only [hne, if_false]
  rw [if_neg (by simp)]

/-- Witness for C6: shuffling ["a","b","c"] with correct option "b" at
index 1; the relocated index still selects "b". -/
theorem reshuffle_preserves_options_witness :
    ∃ k : Nat, jsIndexOf (fisherYates ["a", "b", "c"] (fun _ => 0)) "b" = (k : Int) ∧
      (fisherYates ["a", "b", "c"] (fun _ => 0)).get? k = some "b" :=
  (reshuffle_preserves_options ["a", "b", "c"] 1 (fun _ => 0) "b" (by rfl)).2.1

/-! ## Structural invariant of stored questions (C7) -/

/-- The spec's structural invariant for a stored question: in-range
zero-based correct index and at least two options. -/
def QuestionOK (q : QuestionRow) : Prop :=
  0 ≤ q.correct_index ∧ q.correct_index < (q.options.length : Int) ∧
    2 ≤ q.options.length

instance (q : QuestionRow) : Decidable (QuestionOK q) := by
  unfold QuestionOK; infer_instance

/-- C7 counterexample: the message handler persists a structurally invalid
candidate (empty options, correct index 5) verbatim — no caller rejects it,
and the stored row violates the invariant. -/
theorem persistCandidates_stores_invalid :
    ∃ q ∈ (persistCandidates { questions := [], votes := [], progress := [] } "k"
        [{ question := "q", options := [], correct_index := 5 }]).questions,
      ¬ QuestionOK q := by
  refine ⟨{ id := 1, study_key := "k", question_text := "q", options := [],
            correct_index := 5, thumbs_up := 0, thumbs_down := 0 }, ?_, by decide⟩
  show _ ∈ (persistCandidates _ _ _).questions
  rw [show (persistCandidates { questions := [], votes := [], progress := [] } "k"
      [{ question := "q", options := [], correct_index := 5 }]).questions
      = [{ id := 1, study_key := "k", question_text := "q", options := [],
           correct_index := 5, thumbs_up := 0, thumbs_down := 0 }] from rfl]
  exact List.mem_singleton.mpr rfl

lemma length_fisherYates {α : Type} (l : List α) (rand : Nat → Nat) :
    (fisherYates l rand).length = l.length :=
  (fisherYates_perm l rand).length_eq

lemma questionOK_update (db : DB) (q : QuestionRow) (rand : Nat → Nat)
    (hq : QuestionOK q) (correct : String)
    (_hget : jsGet q.options q.correct_index = some correct)
    (k : Nat) (hk : jsIndexOf (fisherYates q.options rand) correct = (k : Int))
    (hgetk : (fisherYates q.options rand).get? k = some correct) :
    ∀ row2 ∈ (updateQuestionOptions db q.id (fisherYates q.options rand)
        (jsIndexOf (fisherYates q.options rand) correct)).questions,
      (∀ row ∈ db.questions, QuestionOK row) → QuestionOK row2 := by
  intro row2 hmem hall
  unfold updateQuestionOptions at hmem
  obtain ⟨row, hrow, hrow2⟩ := List.mem_map.mp hmem
  by_cases hid : row.id = q.id
  · rw [if_pos hid] at hrow2
    subst hrow2
    have hklen : k < (fisherYates q.options rand).length := List.get?_eq_some.mp hgetk |>.1
    refine ⟨by rw [hk]; exact Int.ofNat_nonneg k, ?_, ?_⟩
    · show jsIndexOf _ _ < _
      rw [hk]
      exact_mod_cast hklen
    · show 2 ≤ (fisherYates q.options rand).length
      rw [length_fisherYates]
      exact hq.2.2
  · rw [if_neg hid] at hrow2
    subst hrow2
    exact hall row hrow

/-- C7 (amended): the persisting caller performs no structural validation —
every generated candidate, valid or not, is stored verbatim — so the
invariant is not enforced at storage time; the reshuffle mutation, the only
later mutation of option order, does preserve the invariant on every stored
row. -/
theorem question_invariant_spec :
    (∀ (db : DB) (key : String) (qs : List GeneratedQuestion) (c : GeneratedQuestion),
      c ∈ qs → ∃ q ∈ (persistCandidates db key qs).questions,
        q.study_key = key ∧ q.question_text = c.question ∧
        q.options = c.options ∧ q.correct_index = c.correct_index) ∧
    (∀ (db : DB) (qs : List QuestionRow) (fault : Nat → ReshuffleFault)
        (rand : Nat → Nat → Nat),
      (∀ row ∈ db.questions, QuestionOK row) → (∀ q ∈ qs, QuestionOK q) →
      ∀ row2 ∈ (reshuffleAll db qs fault rand).questions, QuestionOK row2) := by
  have hsub : ∀ (key : String) (rs : List GeneratedQuestion) (db0 : DB),
      db0.questions ⊆ (persistCandidates db0 key rs).questions := by
    intro key rs
    induction rs with
    | nil => exact fun _ _ h => h
    | cons r tail ihr =>
      intro db0 x hx
      have hfold : persistCandidates db0 key (r :: tail)
          = persistCandidates
              (saveQuestion db0 key r.question r.options r.correct_index).1 key tail := by
        simp [persistCandidates]
      rw [hfold]
      apply ihr
      show x ∈ (saveQuestion db0 key r.question r.options r.correct_index).1.questions
      unfold saveQuestion
      exact List.mem_append_left _ hx
  constructor
  · intro db key qs
    induction qs generalizing db with
    | nil => intro c hc; cases hc
    | cons c0 rest ih =>
      intro c hc
      have hfold : persistCandidates db key (c0 :: rest)
          = persistCandidates
              (saveQuestion db key c0.question c0.options c0.correct_index).1 key rest := by
        simp [persistCandidates]
      rcases List.mem_cons.mp hc with hceq | htail
      · rw [hceq]
        refine ⟨QuestionRow.mk (nextQuestionId db) key c0.question c0.options
            c0.correct_index 0 0, ?_, rfl, rfl, rfl, rfl⟩
        rw [hfold]
        apply hsub key rest
        show _ ∈ (saveQuestion db key c0.question c0.options c0.correct_index).1.questions
        unfold saveQuestion
        exact List.mem_append_right _ (List.mem_singleton.mpr rfl)
      · rw [hfold]
        exact ih _ c htail
  · intro db qs fault rand hall hqs
    induction qs generalizing db with
    | nil => exact fun row2 h => hall row2 h
    | cons q rest ih =>
      have hq : QuestionOK q := hqs q (List.mem_cons_self q rest)
      have hrest : ∀ x ∈ rest, QuestionOK x := fun x hx => hqs x (List.mem_cons_of_mem q hx)
      show ∀ row2 ∈ (reshuffleAll db (q :: rest) fault rand).questions, QuestionOK row2
      have hstep : ∀ row2 ∈ (reshuffleStep db q (fault q.id) (rand q.id)).1.questions,
          QuestionOK row2 := by
        unfold reshuffleStep
        by_cases hpf : fault q.id = ReshuffleFault.parseFail
        · rw [if_pos hpf]
          exact fun row2 h => hall row2 h
        · rw [if_neg hpf]
          cases hget : jsGet q.options q.correct_index with
          | none => exact fun row2 h => hall row2 h
          | some correct =>
            have hmem : correct ∈ q.options := by
              unfold jsGet at hget
              by_cases hneg : q.correct_index < 0
              · rw [if_pos hneg] at hget
                exact absurd hget (by simp)
              · rw [if_neg hneg] at hget
                exact List.get?_mem hget
            have hmem' : correct ∈ fisherYates q.options (rand q.id) :=
              (fisherYates_perm q.options (rand q.id)).mem_iff.mpr hmem
            obtain ⟨k, hk, hgetk⟩ := jsIndexOf_of_mem _ correct hmem'
            have hne : ¬ jsIndexOf (fisherYates q.options (rand q.id)) correct = -1 := by
              rw [hk]
              omega
            simp only [hne, if_false]
            by_cases hper : fault q.id = ReshuffleFault.persistFail
            · rw [if_pos hper]
              exact fun row2 h => hall row2 h
            · rw [if_neg hper]
              exact fun row2 h =>
                questionOK_update db q (rand q.id) hq correct hget k hk hgetk row2 h hall
      cases hb : (reshuffleStep db q (fault q.id) (rand q.id)).2 with
      | true =>
        have hsplit : reshuffleStep db q (fault q.id) (rand q.id)
            = ((reshuffleStep db q (fault q.id) (rand q.id)).1, true) := Prod.ext rfl hb
        have heq : reshuffleAll db (q :: rest) fault rand
            = reshuffleAll (reshuffleStep db q (fault q.id) (rand q.id)).1 rest fault rand := by
          show (match reshuffleStep db q (fault q.id) (rand q.id) with
            | (db', true) => reshuffleAll db' rest fault rand
            | (db', false) => db') = _
          rw [hsplit]
        rw [heq]
        exact ih _ hstep hrest
      | false =>
        have hsplit : reshuffleStep db q (fault q.id) (rand q.id)
            = ((reshuffleStep db q (fault q.id) (rand q.id)).1, false) := Prod.ext rfl hb
        have heq : reshuffleAll db (q :: rest) fault rand
            = (reshuffleStep db q (fault q.id) (rand q.id)).1 := by
          show (match reshuffleStep db q (fault q.id) (rand q.id) with
            | (db', true) => reshuffleAll db' rest fault rand
            | (db', false) => db') = _
          rw [hsplit]
        rw [heq]
        exact hstep

/-- Witness for C7 at a concrete input: the candidate `gqW1` fed to the
persistence loop shows up verbatim in the store. -/
theorem question_invariant_spec_witness :
    ∃ q ∈ (persistCandidates dbW "k2" [gqW1]).questions,
      q.study_key = "k2" ∧ q.question_text = gqW1.question ∧
      q.options = gqW1.options ∧ q.correct_index = gqW1.correct_index :=
  question_invariant_spec.1 dbW "k2" [gqW1] gqW1 (List.mem_singleton.mpr rfl)

/-! ## Failure handling of the reshuffle batch (C8) -/

lemma reshuffleAll_cons (db : DB) (q : QuestionRow) (rest : List QuestionRow)
    (fault : Nat → ReshuffleFault) (rand : Nat → Nat → Nat) :
    reshuffleAll db (q :: rest) fault rand
      = (match reshuffleStep db q (fault q.id) (rand q.id) with
         | (db', true) => reshuffleAll db' rest fault rand
         | (db', false) => db') := rfl

lemma jsIndexOf_found (options : List String) (ci : Int) (rand' : Nat → Nat)
    (c : String) (hget : jsGet options ci = some c) :
    ¬ jsIndexOf (fisherYates options rand') c = -1 := by
  have hmem : c ∈ options := by
    unfold jsGet at hget
    by_cases hneg : ci < 0
    · rw [if_pos hneg] at hget
      exact absurd hget (by simp)
    · rw [if_neg hneg] at hget
      exact List.get?_mem hget
  obtain ⟨k, hk, -⟩ := jsIndexOf_of_mem _ c
    ((fisherYates_perm options rand').mem_iff.mpr hmem)
  rw [hk]
  omega

lemma reshuffleStep_parseFail (db : DB) (q : QuestionRow) (rand' : Nat → Nat) :
    reshuffleStep db q .parseFail rand' = (db, true) := by
  unfold reshuffleStep
  rw [if_pos rfl]

lemma reshuffleStep_continue (db : DB) (q : QuestionRow) (rand' : Nat → Nat)
    (f : ReshuffleFault) (h1 : ¬ f = .parseFail) (h2 : ¬ f = .persistFail)
    (c : String) (hget : jsGet q.options q.correct_index = some c) :
    reshuffleStep db q f rand'
      = (updateQuestionOptions db q.id (fisherYates q.options rand')
          (jsIndexOf (fisherYates q.options rand') c), true) := by
  unfold reshuffleStep
  rw [if_neg h1, hget]
  simp only [jsIndexOf_found q.options q.correct_index rand' c hget, if_false]
  rw [if_neg h2]

lemma reshuffleStep_persistFail (db : DB) (q : QuestionRow) (rand' : Nat → Nat)
    (c : String) (hget : jsGet q.options q.correct_index = some c) :
    reshuffleStep db q .persistFail rand' = (db, false) := by
  unfold reshuffleStep
  rw [if_neg (by simp), hget]
  simp only [jsIndexOf_found q.options q.correct_index rand' c hget, if_false]
  simp

/-- Concrete rows for the C8 counterexample. -/
def qRowA : QuestionRow :=
  { id := 1, study_key := "k", question_text := "t1", options := ["a", "b"],
    correct_index := 0, thumbs_up := 0, thumbs_down := 0 }

/-- Second concrete row for the C8 counterexample. -/
def qRowB : QuestionRow :=
  { id := 2, study_key := "k", question_text := "t2", options := ["c", "d"],
    correct_index := 0, thumbs_up := 0, thumbs_down := 0 }

/-- Concrete store for the C8 counterexample. -/
def dbC : DB := { questions := [qRowA, qRowB], votes := [], progress := [] }

/-- C8 counterexample: (i) with a persistence failure on question 1, the whole
batch stops — question 2 is left untouched (compare the fault-free run, which
re-shuffles both) — so processing does **not** continue past a persistence
failure; (ii) with a render failure on question 1, its stored options and
index **are** changed, not left unchanged. -/
theorem reshuffleAll_failure_counterexample :
    reshuffleAll dbC [qRowA, qRowB]
        (fun i => if i = 1 then .persistFail else .ok) (fun _ _ => 0) = dbC ∧
    (reshuffleAll dbC [qRowA, qRowB] (fun _ => .ok) (fun _ _ => 0)).questions.map
        (fun q => (q.options, q.correct_index)) = [(["b", "a"], 1), (["d", "c"], 1)] ∧
    (reshuffleAll dbC [qRowA, qRowB]
        (fun i => if i = 1 then .renderFail else .ok) (fun _ _ => 0)).questions.map
        (fun q => (q.options, q.correct_index)) = [(["b", "a"], 1), (["d", "c"], 1)] := by
  refine ⟨by decide, by decide, by decide⟩

/-- C8 (amended): in the reshuffle batch, a parse failure skips the question
(store untouched) and processing continues; a render failure continues too,
but the question's freshly persisted options+index stay in the store (the
update precedes rendering, no rollback); a persistence failure aborts the
remainder of the batch, leaving the failed question and all later ones
unchanged while keeping every earlier question's update (no cross-batch
rollback). -/
theorem reshuffleAll_failure_modes (db : DB) (q : QuestionRow)
    (rest : List QuestionRow) (fault : Nat → ReshuffleFault) (rand : Nat → Nat → Nat) :
    (fault q.id = .parseFail →
      reshuffleAll db (q :: rest) fault rand = reshuffleAll db rest fault rand) ∧
    (∀ c, fault q.id = .renderFail → jsGet q.options q.correct_index = some c →
      reshuffleAll db (q :: rest) fault rand
        = reshuffleAll (updateQuestionOptions db q.id (fisherYates q.options (rand q.id))
            (jsIndexOf (fisherYates q.options (rand q.id)) c)) rest fault rand) ∧
    (∀ c, fault q.id = .persistFail → jsGet q.options q.correct_index = some c →
      reshuffleAll db (q :: rest) fault rand = db) := by
  refine ⟨?_, ?_, ?_⟩
  · intro hf
    rw [reshuffleAll_cons, hf, reshuffleStep_parseFail]
  · intro c hf hget
    rw [reshuffleAll_cons, hf,
      reshuffleStep_continue db q (rand q.id) .renderFail (by simp) (by simp) c hget]
  · intro c hf hget
    rw [reshuffleAll_cons, hf, reshuffleStep_persistFail db q (rand q.id) c hget]

/-- Witness for C8 at a concrete input: a persistence failure on question 1
of a two-question batch returns the store unchanged. -/
theorem reshuffleAll_failure_modes_witness :
    reshuffleAll dbC [qRowA, qRowB]
        (fun i => if i = 1 then .persistFail else .ok) (fun _ _ => 0) = dbC :=
  (reshuffleAll_failure_modes dbC qRowA [qRowB]
      (fun i => if i = 1 then .persistFail else .ok) (fun _ _ => 0)).2.2
    "a" (by rfl) (by rfl)

/-! ## Vote ownership and cascade (C9) -/

/-- Store with one question under "k" and one vote and one exposure on it. -/
def dbV : DB :=
  { questions := [qRowA], votes := [VoteRow.mk 7 1 1],
    progress := [ProgressRow.mk 7 1 5] }

/-- Store with two questions and votes on both, for the cascade witness. -/
def dbV2 : DB :=
  { questions := [qRowA, qRowB], votes := [VoteRow.mk 7 1 1, VoteRow.mk 7 2 1],
    progress := [] }

/-- C9 counterexample: `clearQuestions "k"` removes question 1 from the store
but leaves the vote row keyed to it — a Vote row keyed to a removed question
remains, so deletion does not always cascade. -/
theorem clearQuestions_leaves_votes :
    (clearQuestions dbV "k").questions = [] ∧
    (clearQuestions dbV "k").votes = [VoteRow.mk 7 1 1] := by
  exact ⟨by decide, by decide⟩

/-- C9 (amended): single deletion (`deleteQuestion`) cascades — afterwards no
vote or exposure row keyed to the deleted question remains and the question
row is gone; but clearing a study key (`clearQuestions`) deletes only the
question rows, leaving all vote and exposure rows, orphans included,
untouched. -/
theorem vote_cascade_spec (db : DB) (qid : Nat) (key : String) :
    (∀ v ∈ (deleteQuestion db qid).votes, ¬ v.question_id = qid) ∧
    (∀ p ∈ (deleteQuestion db qid).progress, ¬ p.question_id = qid) ∧
    (∀ q ∈ (deleteQuestion db qid).questions, ¬ q.id = qid) ∧
    (clearQuestions db key).votes = db.votes ∧
    (clearQuestions db key).progress = db.progress := by
  refine ⟨?_, ?_, ?_, rfl, rfl⟩
  · intro v hv
    have := List.of_mem_filter hv
    simpa using this
  · intro p hp
    have := List.of_mem_filter hp
    simpa using this
  · intro q hq
    have := List.of_mem_filter hq
    simpa using this

/-- Witness for C9 at a concrete input: after deleting question 1 from
`dbV2`, the surviving vote is not keyed to question 1. -/
theorem vote_cascade_spec_witness :
    ¬ (VoteRow.mk 7 2 1).question_id = 1 :=
  (vote_cascade_spec dbV2 1 "k").1 (VoteRow.mk 7 2 1) (by decide)

/-! ## Selection among unexposed questions (C3) -/

lemma pick1_cons_eq (rnd : Nat → Nat) (q : QuestionRow) (rest : List QuestionRow) :
    pick1 rnd (q :: rest)
      = (match pick1 rnd rest with
         | none => some q
         | some p => if better rnd q p then some q else some p) := rfl

lemma pick1_eq_none_iff (rnd : Nat → Nat) (l : List QuestionRow) :
    pick1 rnd l = none ↔ l = [] := by
  cases l with
  | nil => simp [pick1]
  | cons q rest =>
    constructor
    · intro h
      exfalso
      rw [pick1_cons_eq] at h
      cases hr : pick1 rnd rest with
      | none =>
        rw [hr] at h
        exact Option.noConfusion h
      | some p =>
        rw [hr] at h
        have h' : (if better rnd q p then some q else some p) = none := h
        by_cases hb : better rnd q p
        · rw [if_pos hb] at h'; exact Option.noConfusion h'
        · rw [if_neg hb] at h'; exact Option.noConfusion h'
    · intro h
      cases h

lemma pick1_mem_max (rnd : Nat → Nat) :
    ∀ (l : List QuestionRow) (q : QuestionRow), pick1 rnd l = some q →
      q ∈ l ∧ ∀ p ∈ l, weight p ≤ weight q
  | [], q, h => by cases h
  | a :: rest, q, h => by
    rw [pick1_cons_eq] at h
    cases hr : pick1 rnd rest with
    | none =>
      rw [hr] at h
      have hq : a = q := by
        have h' : some a = some q := h
        exact Option.some.inj h'
      subst hq
      have hrest : rest = [] := (pick1_eq_none_iff rnd rest).mp hr
      subst hrest
      exact ⟨List.mem_singleton.mpr rfl, by intro p hp; rw [List.mem_singleton.mp hp]⟩
    | some p =>
      rw [hr] at h
      have h' : (if better rnd a p then some a else some p) = some q := h
      obtain ⟨hpmem, hpmax⟩ := pick1_mem_max rnd rest p hr
      by_cases hb : better rnd a p
      · rw [if_pos hb] at h'
        have hq : a = q := Option.some.inj h'
        subst hq
        refine ⟨List.mem_cons_self a rest, ?_⟩
        intro y hy
        rcases List.mem_cons.mp hy with hya | hyr
        · rw [hya]
        · have h1 : weight y ≤ weight p := hpmax y hyr
          have h2 : weight p ≤ weight a := by
            rcases hb with hlt | ⟨heq, -⟩
            · exact le_of_lt hlt
            · exact le_of_eq heq.symm
          exact le_trans h1 h2
      · rw [if_neg hb] at h'
        have hq : p = q := Option.some.inj h'
        subst hq
        refine ⟨List.mem_cons_of_mem a hpmem, ?_⟩
        intro y hy
        rcases List.mem_cons.mp hy with hya | hyr
        · rw [hya]
          by_contra hlt
          push_neg at hlt
          exact hb (Or.inl hlt)
        · exact hpmax y hyr

lemma pick1_dominant (rnd : Nat → Nat) :
    ∀ (l : List QuestionRow) (x : QuestionRow),
      (∀ y ∈ l, y = x ∨ weight y < weight x ∨
        (weight y = weight x ∧ rnd x.id < rnd y.id)) →
      x ∈ l → pick1 rnd l = some x
  | [], x, _, hx => absurd hx (List.not_mem_nil x)
  | a :: rest, x, hd, hx => by
    rw [pick1_cons_eq]
    by_cases hxr : x ∈ rest
    · have hr := pick1_dominant rnd rest x
        (fun y hy => hd y (List.mem_cons_of_mem a hy)) hxr
      rw [hr]
      show (if better rnd a x then some a else some x) = some x
      rcases hd a (List.mem_cons_self a rest) with haa | halt | ⟨haeq, harnd⟩
      · rw [haa]
        by_cases hb : better rnd x x
        · rw [if_pos hb]
        · rw [if_neg hb]
      · have hb : ¬ better rnd a x := by
          rintro (h1 | ⟨h2, -⟩)
          · exact absurd halt (not_lt_of_lt h1)
          · rw [h2] at halt
            exact absurd halt (lt_irrefl _)
        rw [if_neg hb]
      · have hb : ¬ better rnd a x := by
          rintro (h1 | ⟨-, h3⟩)
          · rw [haeq] at h1
            exact absurd h1 (lt_irrefl _)
          · exact absurd h3 (Nat.lt_asymm harnd)
        rw [if_neg hb]
    · have hax : a = x := by
        rcases List.mem_cons.mp hx with h1 | h2
        · exact h1.symm
        · exact absurd h2 hxr
      cases hr : pick1 rnd rest with
      | none =>
        rw [hax]
      | some p =>
        show (if better rnd a p then some a else some p) = some x
        have hpmem := (pick1_mem_max rnd rest p hr).1
        have hpx : ¬ p = x := fun h => hxr (h ▸ hpmem)
        rcases hd p (List.mem_cons_of_mem a hpmem) with hpa | hplt | ⟨hpeq, hprnd⟩
        · exact absurd hpa hpx
        · rw [if_pos (show better rnd a p from by rw [hax]; exact Or.inl hplt), hax]
        · rw [if_pos (show better rnd a p from by
            rw [hax]; exact Or.inr ⟨hpeq.symm, hprnd⟩), hax]

lemma getRandomQuestion_fst_of_pick1 (db : DB) (key : String) (uid : Nat)
    (rnd : Nat → Nat) (now : Nat) (q : QuestionRow)
    (h : pick1 rnd (unexposed db key uid) = some q) :
    (getRandomQuestion db key uid rnd now).1 = some q := by
  simp [getRandomQuestion, h]

/-- C3: whenever some question under the study key has no exposure for the
user, the first query returns one of them: an unexposed question of maximal
weight; with a single unexposed question it is returned no matter the
random draws or ratings; and every maximal-weight unexposed question is
returned under some draw of RANDOM() (the tie-break never falls back to id
or insertion order). -/
theorem getRandomQuestion_unexposed_spec (db : DB) (key : String) (uid : Nat)
    (rnd : Nat → Nat) (now : Nat) (hne : unexposed db key uid ≠ []) :
    (∃ q, (getRandomQuestion db key uid rnd now).1 = some q ∧
      q ∈ unexposed db key uid ∧
      ∀ p ∈ unexposed db key uid, weight p ≤ weight q) ∧
    (∀ q0, unexposed db key uid = [q0] →
      (getRandomQuestion db key uid rnd now).1 = some q0) ∧
    (∀ x ∈ unexposed db key uid,
      (∀ p ∈ unexposed db key uid, weight p ≤ weight x) →
      (db.questions.map (fun q => q.id)).Nodup →
      ∃ rnd2 : Nat → Nat, (getRandomQuestion db key uid rnd2 now).1 = some x) := by
  refine ⟨?_, ?_, ?_⟩
  · cases hp : pick1 rnd (unexposed db key uid) with
    | none => exact absurd ((pick1_eq_none_iff rnd _).mp hp) hne
    | some q =>
      obtain ⟨hmem, hmax⟩ := pick1_mem_max rnd _ q hp
      exact ⟨q, getRandomQuestion_fst_of_pick1 db key uid rnd now q hp, hmem, hmax⟩
  · intro q0 h1
    apply getRandomQuestion_fst_of_pick1
    rw [h1]
    rfl
  · intro x hx hmax hnodup
    have hinj : ∀ y ∈ unexposed db key uid, y.id = x.id → y = x := by
      have hsub : unexposed db key uid ⊆ db.questions := by
        intro z hz
        exact List.mem_of_mem_filter hz
      intro y hy hid
      exact List.inj_on_of_nodup_map hnodup (hsub hy) (hsub hx) hid
    refine ⟨fun i => if i = x.id then 0 else 1, ?_⟩
    apply getRandomQuestion_fst_of_pick1
    apply pick1_dominant _ _ x _ hx
    intro y hy
    by_cases hyx : y = x
    · exact Or.inl hyx
    · have hyid : ¬ y.id = x.id := fun hid => hyx (hinj y hy hid)
      rcases lt_or_eq_of_le (hmax y hy) with hlt | heq
      · exact Or.inr (Or.inl hlt)
      · refine Or.inr (Or.inr ⟨heq, ?_⟩)
        rw [if_pos rfl, if_neg hyid]
        exact Nat.zero_lt_one

/-- Concrete store for selection witnesses: two questions under "k", user 7
has seen question 2 only. -/
def dbSel : DB :=
  { questions := [qRowA, qRowB], votes := [], progress := [ProgressRow.mk 7 2 50] }

/-- Witness for C3 at a concrete input: with question 2 already exposed to
user 7, selection returns the single unexposed question 1. -/
theorem getRandomQuestion_unexposed_spec_witness :
    (getRandomQuestion dbSel "k" 7 (fun _ => 0) 100).1 = some qRowA :=
  (getRandomQuestion_unexposed_spec dbSel "k" 7 (fun _ => 0) 100
    (by decide)).2.1 qRowA (by decide)

/-! ## LRU fallback of the selection engine (C4) -/

/-- The PRIMARY KEY (user_id, question_id) of `user_progress`: no two rows
share a key. -/
def ProgressPK (ps : List ProgressRow) : Prop :=
  ps.Pairwise (fun a b => ¬ (a.user_id = b.user_id ∧ a.question_id = b.question_id))

instance (ps : List ProgressRow) : Decidable (ProgressPK ps) := by
  unfold ProgressPK
  infer_instance

/-- Read the user's exposure timestamp for a question (keyed lookup of the
user_progress row). -/
def lastUsed (db : DB) (uid qid : Nat) : Option Nat :=
  (db.progress.find? (fun p => p.user_id = uid ∧ p.question_id = qid)).map
    (fun p => p.last_used_at)

lemma minByUsed_cons_eq (x : QuestionRow × ProgressRow)
    (rest : List (QuestionRow × ProgressRow)) :
    minByUsed (x :: rest)
      = (match minByUsed rest with
         | none => some x
         | some y => if x.2.last_used_at ≤ y.2.last_used_at then some x else some y) := rfl

lemma minByUsed_eq_none_iff (l : List (QuestionRow × ProgressRow)) :
    minByUsed l = none ↔ l = [] := by
  cases l with
  | nil => simp [minByUsed]
  | cons x rest =>
    constructor
    · intro h
      exfalso
      rw [minByUsed_cons_eq] at h
      cases hr : minByUsed rest with
      | none =>
        rw [hr] at h
        exact Option.noConfusion h
      | some y =>
        rw [hr] at h
        have h' : (if x.2.last_used_at ≤ y.2.last_used_at then some x else some y)
            = none := h
        by_cases hb : x.2.last_used_at ≤ y.2.last_used_at
        · rw [if_pos hb] at h'; exact Option.noConfusion h'
        · rw [if_neg hb] at h'; exact Option.noConfusion h'
    · intro h
      cases h

lemma minByUsed_mem_min :
    ∀ (l : List (QuestionRow × ProgressRow)) (x : QuestionRow × ProgressRow),
      minByUsed l = some x →
      x ∈ l ∧ ∀ y ∈ l, x.2.last_used_at ≤ y.2.last_used_at
  | [], x, h => by cases h
  | a :: rest, x, h => by
    rw [minByUsed_cons_eq] at h
    cases hr : minByUsed rest with
    | none =>
      rw [hr] at h
      have hq : a = x := Option.some.inj h
      subst hq
      have hrest : rest = [] := (minByUsed_eq_none_iff rest).mp hr
      subst hrest
      exact ⟨List.mem_singleton.mpr rfl, by intro y hy; rw [List.mem_singleton.mp hy]⟩
    | some y =>
      rw [hr] at h
      have h' : (if a.2.last_used_at ≤ y.2.last_used_at then some a else some y)
          = some x := h
      obtain ⟨hymem, hymin⟩ := minByUsed_mem_min rest y hr
      by_cases hb : a.2.last_used_at ≤ y.2.last_used_at
      · rw [if_pos hb] at h'
        have hq : a = x := Option.some.inj h'
        subst hq
        refine ⟨List.mem_cons_self a rest, ?_⟩
        intro z hz
        rcases List.mem_cons.mp hz with hza | hzr
        · rw [hza]
        · exact le_trans hb (hymin z hzr)
      · rw [if_neg hb] at h'
        have hq : y = x := Option.some.inj h'
        subst hq
        refine ⟨List.mem_cons_of_mem a hymem, ?_⟩
        intro z hz
        rcases List.mem_cons.mp hz with hza | hzr
        · rw [hza]
          exact le_of_lt (lt_of_not_le hb)
        · exact hymin z hzr

lemma mem_lruJoin_iff (db : DB) (key : String) (uid : Nat)
    (qp : QuestionRow × ProgressRow) :
    qp ∈ lruJoin db key uid ↔
      qp.1 ∈ db.questions ∧ qp.1.study_key = key ∧ qp.2 ∈ db.progress ∧
        qp.2.user_id = uid ∧ qp.2.question_id = qp.1.id := by
  cases qp with
  | mk q p =>
    simp only [lruJoin, List.mem_flatMap, List.mem_map, List.mem_filter,
      decide_eq_true_eq, Prod.mk.injEq]
    constructor
    · rintro ⟨q', ⟨hq'mem, hq'key⟩, p', ⟨hp'mem, hp'uid, hp'qid⟩, hq'eq, hp'eq⟩
      subst hq'eq
      subst hp'eq
      exact ⟨hq'mem, hq'key, hp'mem, hp'uid, hp'qid⟩
    · rintro ⟨hqmem, hqkey, hpmem, hpuid, hpqid⟩
      exact ⟨q, ⟨hqmem, hqkey⟩, p, ⟨hpmem, hpuid, hpqid⟩, rfl, rfl⟩

lemma unexposed_eq_nil_of_all (db : DB) (key : String) (uid : Nat)
    (h : ∀ q ∈ db.questions, q.study_key = key →
      ∃ p ∈ db.progress, p.user_id = uid ∧ p.question_id = q.id) :
    unexposed db key uid = [] := by
  unfold unexposed
  rw [List.filter_eq_nil]
  intro q hq
  simp only [decide_eq_true_eq, not_and, not_not]
  intro hkey
  obtain ⟨p, hpmem, hpuid, hpqid⟩ := h q hq hkey
  rw [List.any_eq_true]
  exact ⟨p, hpmem, by simp [hpuid, hpqid]⟩

lemma getRandomQuestion_lru_eq (db : DB) (key : String) (uid : Nat)
    (rnd : Nat → Nat) (now : Nat) (q : QuestionRow)
    (hune : unexposed db key uid = [])
    (hlru : pickLRU db key uid = some q) :
    getRandomQuestion db key uid rnd now
      = (some q, { db with progress := upsertProgress db.progress uid q.id now }) := by
  simp [getRandomQuestion, hune, pick1, hlru]

lemma find?_progress_of_mem (ps : List ProgressRow) (p : ProgressRow)
    (hpk : ProgressPK ps) (hp : p ∈ ps) (uid qid : Nat)
    (hkeyu : p.user_id = uid) (hkeyq : p.question_id = qid) :
    ps.find? (fun r => r.user_id = uid ∧ r.question_id = qid) = some p := by
  induction ps with
  | nil => cases hp
  | cons r rest ih =>
    have hhead := (List.pairwise_cons.mp hpk).1
    have hpk' : ProgressPK rest := (List.pairwise_cons.mp hpk).2
    by_cases hr : r.user_id = uid ∧ r.question_id = qid
    · rw [List.find?_cons_of_pos _ (by simpa using hr)]
      rcases List.mem_cons.mp hp with hpr | hprest
      · rw [hpr]
      · exfalso
        exact hhead p hprest ⟨by rw [hr.1, hkeyu], by rw [hr.2, hkeyq]⟩
    · rw [List.find?_cons_of_neg _ (by simpa using hr)]
      rcases List.mem_cons.mp hp with hpr | hprest
      · exact absurd ⟨by rw [← hpr, hkeyu], by rw [← hpr, hkeyq]⟩ hr
      · exact ih hpk' hprest

lemma find?_map_touch (ps : List ProgressRow) (uid qid now : Nat) :
    (ps.map (fun p =>
      if p.user_id = uid ∧ p.question_id = qid then { p with last_used_at := now }
      else p)).find? (fun r => r.user_id = uid ∧ r.question_id = qid)
      = (ps.find? (fun r => r.user_id = uid ∧ r.question_id = qid)).map
          (fun p => { p with last_used_at := now }) := by
  induction ps with
  | nil => rfl
  | cons p rest ih =>
    by_cases hp : p.user_id = uid ∧ p.question_id = qid
    · simp [List.find?, hp]
    · simpa [List.find?, hp] using ih

lemma find?_progress_append_new (ps : List ProgressRow) (uid qid now : Nat)
    (h : ps.find? (fun r => r.user_id = uid ∧ r.question_id = qid) = none) :
    ((ps ++ [ProgressRow.mk uid qid now]).find?
        (fun r => r.user_id = uid ∧ r.question_id = qid))
      = some (ProgressRow.mk uid qid now) := by
  rw [List.find?_append, h]
  simp [List.find?]

/-- Looking up the freshly upserted key returns the new timestamp. -/
lemma lastUsed_upsert_self (db : DB) (ps : List ProgressRow) (uid qid now : Nat)
    (hps : db.progress = upsertProgress ps uid qid now) :
    lastUsed db uid qid = some now := by
  unfold lastUsed
  rw [hps]
  unfold upsertProgress
  by_cases hany : ps.any (fun p => p.user_id = uid ∧ p.question_id = qid)
  · rw [if_pos hany, find?_map_touch]
    cases hfind : ps.find? (fun r => r.user_id = uid ∧ r.question_id = qid) with
    | none =>
      exfalso
      rw [List.any_eq_true] at hany
      obtain ⟨p, hpmem, hpkey⟩ := hany
      rw [List.find?_eq_none] at hfind
      exact hfind p hpmem hpkey
    | some r => simp
  · rw [if_neg hany, find?_progress_append_new]
    · rfl
    · rw [List.find?_eq_none]
      intro x hx hkey
      exact hany (List.any_eq_true.mpr ⟨x, hx, hkey⟩)

lemma find?_map_touch_other (ps : List ProgressRow) (uid qid now uid' qid' : Nat)
    (h : ¬ (uid = uid' ∧ qid = qid')) :
    (ps.map (fun p =>
      if p.user_id = uid ∧ p.question_id = qid then { p with last_used_at := now }
      else p)).find? (fun r => r.user_id = uid' ∧ r.question_id = qid')
      = ps.find? (fun r => r.user_id = uid' ∧ r.question_id = qid') := by
  induction ps with
  | nil => rfl
  | cons p rest ih =>
    by_cases hlook : p.user_id = uid' ∧ p.question_id = qid'
    · have hup : ¬ (p.user_id = uid ∧ p.question_id = qid) := by
        rintro ⟨h1, h2⟩
        exact h ⟨by rw [← h1, hlook.1], by rw [← h2, hlook.2]⟩
      simp only [List.map_cons, if_neg hup]
      rw [List.find?_cons_of_pos _ (by simpa using hlook),
        List.find?_cons_of_pos _ (by simpa using hlook)]
    · by_cases hup : p.user_id = uid ∧ p.question_id = qid
      · simp only [List.map_cons, if_pos hup]
        rw [List.find?_cons_of_neg _ (by simpa using hlook),
          List.find?_cons_of_neg _ (by simpa using hlook)]
        exact ih
      · simp only [List.map_cons, if_neg hup]
        rw [List.find?_cons_of_neg _ (by simpa using hlook),
          List.find?_cons_of_neg _ (by simpa using hlook)]
        exact ih

/-- Looking up a different key is unaffected by the upsert. -/
lemma find?_upsert_other (ps : List ProgressRow) (uid qid now uid' qid' : Nat)
    (h : ¬ (uid = uid' ∧ qid = qid')) :
    (upsertProgress ps uid qid now).find?
        (fun r => r.user_id = uid' ∧ r.question_id = qid')
      = ps.find? (fun r => r.user_id = uid' ∧ r.question_id = qid') := by
  unfold upsertProgress
  by_cases hany : ps.any (fun p => p.user_id = uid ∧ p.question_id = qid)
  · rw [if_pos hany]
    exact find?_map_touch_other ps uid qid now uid' qid' h
  · rw [if_neg hany, List.find?_append]
    cases hfind : ps.find? (fun r => r.user_id = uid' ∧ r.question_id = qid') with
    | none =>
      have hnew : ¬ ((ProgressRow.mk uid qid now).user_id = uid' ∧
          (ProgressRow.mk uid qid now).question_id = qid') := by
        rintro ⟨h1, h2⟩
        exact h ⟨h1, h2⟩
      simp [List.find?, hnew]
    | some r => rfl

lemma upsert_key_present (ps : List ProgressRow) (uid qid now uid' qid' : Nat)
    (h : ∃ p ∈ ps, p.user_id = uid' ∧ p.question_id = qid') :
    ∃ p ∈ upsertProgress ps uid qid now,
      p.user_id = uid' ∧ p.question_id = qid' := by
  obtain ⟨p, hp, hkey⟩ := h
  unfold upsertProgress
  by_cases hany : ps.any (fun p => p.user_id = uid ∧ p.question_id = qid)
  · rw [if_pos hany]
    by_cases hup : p.user_id = uid ∧ p.question_id = qid
    · exact ⟨{ p with last_used_at := now },
        List.mem_map.mpr ⟨p, hp, by rw [if_pos hup]⟩, hkey⟩
    · exact ⟨p, List.mem_map.mpr ⟨p, hp, by rw [if_neg hup]⟩, hkey⟩
  · rw [if_neg hany]
    exact ⟨p, List.mem_append_left _ hp, hkey⟩

lemma upsert_PK (ps : List ProgressRow) (uid qid now : Nat) (hpk : ProgressPK ps) :
    ProgressPK (upsertProgress ps uid qid now) := by
  have hku : ∀ a : ProgressRow,
      ((if a.user_id = uid ∧ a.question_id = qid then { a with last_used_at := now }
        else a) : ProgressRow).user_id = a.user_id := by
    intro a
    by_cases h : a.user_id = uid ∧ a.question_id = qid
    · rw [if_pos h]
    · rw [if_neg h]
  have hkq : ∀ a : ProgressRow,
      ((if a.user_id = uid ∧ a.question_id = qid then { a with last_used_at := now }
        else a) : ProgressRow).question_id = a.question_id := by
    intro a
    by_cases h : a.user_id = uid ∧ a.question_id = qid
    · rw [if_pos h]
    · rw [if_neg h]
  unfold upsertProgress
  by_cases hany : ps.any (fun p => p.user_id = uid ∧ p.question_id = qid)
  · rw [if_pos hany]
    unfold ProgressPK at hpk ⊢
    rw [List.pairwise_map]
    refine hpk.imp ?_
    intro a b hr hc
    rw [hku a, hku b, hkq a, hkq b] at hc
    exact hr hc
  · rw [if_neg hany]
    unfold ProgressPK at hpk ⊢
    rw [List.pairwise_append]
    refine ⟨hpk, List.pairwise_singleton _ _, ?_⟩
    intro a ha b hb
    rw [List.mem_singleton.mp hb]
    rintro ⟨h1, h2⟩
    exact hany (List.any_eq_true.mpr ⟨a, ha, by simp [h1, h2]⟩)

/-- Core behaviour of the LRU branch: with every question under the key
exposed, selection returns a question whose exposure timestamp is minimal
and upserts that question's exposure to `now` in the returned state. -/
lemma lru_select (db : DB) (key : String) (uid : Nat) (rnd : Nat → Nat) (now : Nat)
    (hexp : ∀ q ∈ db.questions, q.study_key = key →
      ∃ p ∈ db.progress, p.user_id = uid ∧ p.question_id = q.id)
    (hne : ∃ q ∈ db.questions, q.study_key = key)
    (hpk : ProgressPK db.progress) :
    ∃ q1 p1, getRandomQuestion db key uid rnd now
        = (some q1, { db with progress := upsertProgress db.progress uid q1.id now }) ∧
      q1 ∈ db.questions ∧ q1.study_key = key ∧
      p1 ∈ db.progress ∧ p1.user_id = uid ∧ p1.question_id = q1.id ∧
      lastUsed db uid q1.id = some p1.last_used_at ∧
      (∀ q ∈ db.questions, q.study_key = key →
        ∀ t, lastUsed db uid q.id = some t → p1.last_used_at ≤ t) := by
  have hune := unexposed_eq_nil_of_all db key uid hexp
  obtain ⟨q0, hq0, hq0key⟩ := hne
  obtain ⟨p0, hp0, hp0u, hp0q⟩ := hexp q0 hq0 hq0key
  have hjoin0 : (q0, p0) ∈ lruJoin db key uid :=
    (mem_lruJoin_iff db key uid (q0, p0)).mpr ⟨hq0, hq0key, hp0, hp0u, hp0q⟩
  have hjne : ¬ lruJoin db key uid = [] := by
    intro hnil
    rw [hnil] at hjoin0
    cases hjoin0
  cases hmin : minByUsed (lruJoin db key uid) with
  | none => exact absurd ((minByUsed_eq_none_iff _).mp hmin) hjne
  | some x =>
    obtain ⟨hxmem, hxmin⟩ := minByUsed_mem_min _ x hmin
    obtain ⟨hx1mem, hx1key, hx2mem, hx2u, hx2q⟩ :=
      (mem_lruJoin_iff db key uid x).mp hxmem
    have hlru : pickLRU db key uid = some x.1 := by
      unfold pickLRU
      rw [hmin]
      rfl
    refine ⟨x.1, x.2, getRandomQuestion_lru_eq db key uid rnd now x.1 hune hlru,
      hx1mem, hx1key, hx2mem, hx2u, hx2q, ?_, ?_⟩
    · unfold lastUsed
      rw [find?_progress_of_mem db.progress x.2 hpk hx2mem uid x.1.id hx2u hx2q]
      rfl
    · intro q hq hqkey t ht
      obtain ⟨p, hp, hpu, hpq⟩ := hexp q hq hqkey
      have hfind := find?_progress_of_mem db.progress p hpk hp uid q.id hpu hpq
      unfold lastUsed at ht
      rw [hfind] at ht
      have ht' : p.last_used_at = t := by simpa using ht
      have hjoin : (q, p) ∈ lruJoin db key uid :=
        (mem_lruJoin_iff db key uid (q, p)).mpr ⟨hq, hqkey, hp, hpu, hpq⟩
      rw [← ht']
      exact hxmin (q, p) hjoin

/-- C4: when every question under the study key has an exposure for the
user, selection returns a question with minimal last_used_at; the returned
state already carries that question's exposure upserted to the current time
(before returning); and — when another question exists under the key and the
clock is ahead of all stored timestamps — an immediate second call returns a
different question whose original timestamp is minimal among the remaining
ones. -/
theorem getRandomQuestion_lru_spec (db : DB) (key : String) (uid : Nat)
    (rnd1 rnd2 : Nat → Nat) (now1 now2 : Nat)
    (hexp : ∀ q ∈ db.questions, q.study_key = key →
      ∃ p ∈ db.progress, p.user_id = uid ∧ p.question_id = q.id)
    (hne : ∃ q ∈ db.questions, q.study_key = key)
    (hpk : ProgressPK db.progress)
    (hnow : ∀ p ∈ db.progress, p.last_used_at < now1) :
    ∃ q1 t1,
      (getRandomQuestion db key uid rnd1 now1).1 = some q1 ∧
      q1 ∈ db.questions ∧ q1.study_key = key ∧
      lastUsed db uid q1.id = some t1 ∧
      (∀ q ∈ db.questions, q.study_key = key →
        ∀ t, lastUsed db uid q.id = some t → t1 ≤ t) ∧
      lastUsed (getRandomQuestion db key uid rnd1 now1).2 uid q1.id = some now1 ∧
      ((∃ q' ∈ db.questions, q'.study_key = key ∧ ¬ q'.id = q1.id) →
        ∃ q2 t2,
          (getRandomQuestion (getRandomQuestion db key uid rnd1 now1).2
              key uid rnd2 now2).1 = some q2 ∧
          q2 ∈ db.questions ∧ q2.study_key = key ∧ ¬ q2.id = q1.id ∧
          lastUsed db uid q2.id = some t2 ∧
          (∀ q ∈ db.questions, q.study_key = key → ¬ q.id = q1.id →
            ∀ t, lastUsed db uid q.id = some t → t2 ≤ t)) := by
  obtain ⟨q1, p1, heq, hq1mem, hq1key, hp1mem, hp1u, hp1q, hlast1, hmin1⟩ :=
    lru_select db key uid rnd1 now1 hexp hne hpk
  refine ⟨q1, p1.last_used_at, by rw [heq], hq1mem, hq1key, hlast1, hmin1, ?_, ?_⟩
  · rw [heq]
    exact lastUsed_upsert_self _ db.progress uid q1.id now1 rfl
  · rintro ⟨q', hq'mem, hq'key, hq'id⟩
    set db1 := (getRandomQuestion db key uid rnd1 now1).2 with hdb1
    have hdb1eq : db1 = { db with progress := upsertProgress db.progress uid q1.id now1 } := by
      rw [hdb1, heq]
    have hdb1q : db1.questions = db.questions := by rw [hdb1eq]
    have hdb1p : db1.progress = upsertProgress db.progress uid q1.id now1 := by
      rw [hdb1eq]
    have hexp1 : ∀ q ∈ db1.questions, q.study_key = key →
        ∃ p ∈ db1.progress, p.user_id = uid ∧ p.question_id = q.id := by
      rw [hdb1q, hdb1p]
      intro q hq hk
      exact upsert_key_present _ _ _ _ _ _ (hexp q hq hk)
    have hne1 : ∃ q ∈ db1.questions, q.study_key = key := by
      rw [hdb1q]
      exact ⟨q', hq'mem, hq'key⟩
    have hpk1 : ProgressPK db1.progress := by
      rw [hdb1p]
      exact upsert_PK _ _ _ _ hpk
    obtain ⟨q2, p2, heq2, hq2mem, hq2key, hp2mem, hp2u, hp2q, hlast2, hmin2⟩ :=
      lru_select db1 key uid rnd2 now2 hexp1 hne1 hpk1
    obtain ⟨p', hp'mem, hp'u, hp'q⟩ := hexp q' hq'mem hq'key
    have hfind' := find?_progress_of_mem db.progress p' hpk hp'mem uid q'.id hp'u hp'q
    have hlastq' : lastUsed db uid q'.id = some p'.last_used_at := by
      unfold lastUsed
      rw [hfind']
      rfl
    have hotherq' : lastUsed db1 uid q'.id = lastUsed db uid q'.id := by
      unfold lastUsed
      rw [hdb1p, find?_upsert_other db.progress uid q1.id now1 uid q'.id
        (by rintro ⟨-, h2⟩; exact hq'id h2.symm)]
    have hq2id : ¬ q2.id = q1.id := by
      intro hid
      have hself : lastUsed db1 uid q1.id = some now1 :=
        lastUsed_upsert_self db1 db.progress uid q1.id now1 hdb1p
      have h1 : lastUsed db1 uid q2.id = some now1 := by
        rw [hid]
        exact hself
      have h2 : p2.last_used_at = now1 := by
        rw [hlast2] at h1
        exact Option.some.inj h1
      have h3 := hmin2 q' (by rw [hdb1q]; exact hq'mem) hq'key p'.last_used_at
        (by rw [hotherq']; exact hlastq')
      have h4 := hnow p' hp'mem
      rw [h2] at h3
      exact absurd (lt_of_le_of_lt h3 h4) (lt_irrefl _)
    have hother2 : lastUsed db1 uid q2.id = lastUsed db uid q2.id := by
      unfold lastUsed
      rw [hdb1p, find?_upsert_other db.progress uid q1.id now1 uid q2.id
        (by rintro ⟨-, h2⟩; exact hq2id h2.symm)]
    refine ⟨q2, p2.last_used_at, by rw [heq2], by rw [hdb1q] at hq2mem; exact hq2mem,
      hq2key, hq2id, by rw [← hother2]; exact hlast2, ?_⟩
    intro q hq hk hqid' t ht
    apply hmin2 q (by rw [hdb1q]; exact hq) hk t
    have hotherq : lastUsed db1 uid q.id = lastUsed db uid q.id := by
      unfold lastUsed
      rw [hdb1p, find?_upsert_other db.progress uid q1.id now1 uid q.id
        (by rintro ⟨-, h2⟩; exact hqid' h2.symm)]
    rw [hotherq]
    exact ht

/-- Concrete store for the C4 witness: both questions exposed to user 7 at
distinct times 10 and 20. -/
def dbLRU : DB :=
  { questions := [qRowA, qRowB], votes := [],
    progress := [ProgressRow.mk 7 1 10, ProgressRow.mk 7 2 20] }

/-- Witness for C4 at a concrete input: with both questions of `dbLRU`
exposed, selection picks the oldest exposure and a second call advances to
the next-oldest. -/
theorem getRandomQuestion_lru_spec_witness :
    ∃ q1 t1,
      (getRandomQuestion dbLRU "k" 7 (fun _ => 0) 100).1 = some q1 ∧
      q1 ∈ dbLRU.questions ∧ q1.study_key = "k" ∧
      lastUsed dbLRU 7 q1.id = some t1 ∧
      (∀ q ∈ dbLRU.questions, q.study_key = "k" →
        ∀ t, lastUsed dbLRU 7 q.id = some t → t1 ≤ t) ∧
      lastUsed (getRandomQuestion dbLRU "k" 7 (fun _ => 0) 100).2 7 q1.id = some 100 ∧
      ((∃ q' ∈ dbLRU.questions, q'.study_key = "k" ∧ ¬ q'.id = q1.id) →
        ∃ q2 t2,
          (getRandomQuestion (getRandomQuestion dbLRU "k" 7 (fun _ => 0) 100).2
              "k" 7 (fun _ => 0) 200).1 = some q2 ∧
          q2 ∈ dbLRU.questions ∧ q2.study_key = "k" ∧ ¬ q2.id = q1.id ∧
          lastUsed dbLRU 7 q2.id = some t2 ∧
          (∀ q ∈ dbLRU.questions, q.study_key = "k" → ¬ q.id = q1.id →
            ∀ t, lastUsed dbLRU 7 q.id = some t → t2 ≤ t)) :=
  getRandomQuestion_lru_spec dbLRU "k" 7 (fun _ => 0) (fun _ => 0) 100 200
    (by decide) (by decide) (by decide) (by decide)

/-! ## Ledger consistency (C10) -/

/-- Number of stored votes on a question with a given polarity. -/
def countVotes (vs : List VoteRow) (qid : Nat) (v : Int) : Nat :=
  (vs.filter (fun r => r.question_id = qid ∧ r.vote = v)).length

/-- The implicit ledger invariant: every stored question's counters equal the
number of its stored votes of each polarity. -/
def LedgerConsistent (db : DB) : Prop :=
  ∀ q ∈ db.questions, q.thumbs_up = (countVotes db.votes q.id 1 : Int) ∧
    q.thumbs_down = (countVotes db.votes q.id (-1) : Int)

/-- The PRIMARY KEY (user_id, question_id) of `votes`. -/
def VotesPK (vs : List VoteRow) : Prop :=
  vs.Pairwise (fun a b => ¬ (a.user_id = b.user_id ∧ a.question_id = b.question_id))

/-- Stored votes carry only the two polarities 1 and -1. -/
def VotesValued (vs : List VoteRow) : Prop :=
  ∀ v ∈ vs, v.vote = 1 ∨ v.vote = -1

/-- The claim's standing assumption: every vote is keyed to a stored
question. -/
def VotesOnStored (db : DB) : Prop :=
  ∀ v ∈ db.votes, ∃ q ∈ db.questions, q.id = v.question_id

/-- The full inductive invariant of the vote ledger. -/
def LedgerInv (db : DB) : Prop :=
  LedgerConsistent db ∧ VotesPK db.votes ∧ VotesValued db.votes ∧ VotesOnStored db

instance (db : DB) : Decidable (LedgerConsistent db) := by
  unfold LedgerConsistent
  infer_instance

instance (vs : List VoteRow) : Decidable (VotesPK vs) := by
  unfold VotesPK
  infer_instance

instance (vs : List VoteRow) : Decidable (VotesValued vs) := by
  unfold VotesValued
  infer_instance

instance (db : DB) : Decidable (VotesOnStored db) := by
  unfold VotesOnStored
  infer_instance

instance (db : DB) : Decidable (LedgerInv db) := by
  unfold LedgerInv
  infer_instance

lemma mem_le_foldr_max : ∀ (l : List Nat) (x : Nat), x ∈ l → x ≤ l.foldr max 0
  | [], x, hx => absurd hx (List.not_mem_nil x)
  | a :: t, x, hx => by
    rcases List.mem_cons.mp hx with hxa | hxt
    · rw [hxa]
      exact le_max_left _ _
    · exact le_trans (mem_le_foldr_max t x hxt) (le_max_right _ _)

lemma id_lt_nextQuestionId (db : DB) (q : QuestionRow) (hq : q ∈ db.questions) :
    q.id < nextQuestionId db :=
  Nat.lt_succ_of_le (mem_le_foldr_max _ q.id (List.mem_map_of_mem (fun q => q.id) hq))

lemma countVotes_of_no_match (vs : List VoteRow) (qid : Nat) (v : Int)
    (h : ∀ r ∈ vs, ¬ r.question_id = qid) : countVotes vs qid v = 0 := by
  unfold countVotes
  rw [List.filter_eq_nil.mpr]
  · rfl
  · intro r hr
    simp only [decide_eq_true_eq, not_and]
    intro hid
    exact absurd hid (h r hr)

lemma countVotes_append_single (vs : List VoteRow) (r : VoteRow) (qid : Nat) (v : Int) :
    countVotes (vs ++ [r]) qid v
      = countVotes vs qid v + (if r.question_id = qid ∧ r.vote = v then 1 else 0) := by
  unfold countVotes
  rw [List.filter_append, List.length_append]
  by_cases hr : r.question_id = qid ∧ r.vote = v
  · rw [if_pos hr]
    simp [List.filter, hr]
  · rw [if_neg hr]
    simp [List.filter, hr]

lemma bumpRow_id (q : QuestionRow) (qid : Nat) (du dd : Int) :
    ((if q.id = qid then
        { q with thumbs_up := q.thumbs_up + du, thumbs_down := q.thumbs_down + dd }
      else q) : QuestionRow).id = q.id := by
  by_cases h : q.id = qid
  · rw [if_pos h]
  · rw [if_neg h]

lemma exists_id_bump (qs : List QuestionRow) (qid : Nat) (du dd : Int) (vid : Nat)
    (h : ∃ q ∈ qs, q.id = vid) :
    ∃ q ∈ bumpCounters qs qid du dd, q.id = vid := by
  obtain ⟨q, hq, hid⟩ := h
  refine ⟨(if q.id = qid then
      { q with thumbs_up := q.thumbs_up + du, thumbs_down := q.thumbs_down + dd }
    else q), List.mem_map_of_mem _ hq, ?_⟩
  rw [bumpRow_id]
  exact hid

lemma countVotes_delete_ne (vs : List VoteRow) (qid vid : Nat) (v : Int)
    (h : ¬ vid = qid) :
    countVotes (vs.filter (fun r => ¬ r.question_id = qid)) vid v
      = countVotes vs vid v := by
  unfold countVotes
  induction vs with
  | nil => rfl
  | cons r rest ih =>
    by_cases h1 : r.question_id = vid ∧ r.vote = v
    · have h2 : ¬ r.question_id = qid := by
        rw [h1.1]
        exact h
      rw [List.filter_cons_of_pos (by simpa using h2),
        List.filter_cons_of_pos (by simpa using h1),
        List.filter_cons_of_pos (by simpa using h1)]
      simp only [List.length_cons]
      rw [ih]
    · by_cases h2 : r.question_id = qid
      · rw [List.filter_cons_of_neg (by simpa using h2),
          List.filter_cons_of_neg (by simpa using h1)]
        exact ih
      · rw [List.filter_cons_of_pos (by simpa using h2),
          List.filter_cons_of_neg (by simpa using h1),
          List.filter_cons_of_neg (by simpa using h1)]
        exact ih

/-- `saveQuestion` preserves the ledger invariant: the fresh question starts
at (0, 0) with no votes keyed to its id. -/
lemma saveQuestion_preserves_inv (db : DB) (key t : String) (opts : List String)
    (ci : Int) (hinv : LedgerInv db) :
    LedgerInv (saveQuestion db key t opts ci).1 := by
  obtain ⟨hled, hpk, hval, hstored⟩ := hinv
  have hfresh : ∀ r ∈ db.votes, ¬ r.question_id = nextQuestionId db := by
    intro r hr hid
    obtain ⟨q, hq, hqid⟩ := hstored r hr
    have := id_lt_nextQuestionId db q hq
    rw [hqid, hid] at this
    exact absurd this (lt_irrefl _)
  refine ⟨?_, hpk, hval, ?_⟩
  · intro q hq
    rcases List.mem_append.mp hq with hold | hnew
    · exact hled q hold
    · have hq' : q = QuestionRow.mk (nextQuestionId db) key t opts ci 0 0 :=
        List.mem_singleton.mp hnew
      subst hq'
      constructor
      · show (0 : Int) = ((countVotes db.votes (nextQuestionId db) 1 : Nat) : Int)
        rw [countVotes_of_no_match db.votes (nextQuestionId db) 1 hfresh]
        rfl
      · show (0 : Int) = ((countVotes db.votes (nextQuestionId db) (-1) : Nat) : Int)
        rw [countVotes_of_no_match db.votes (nextQuestionId db) (-1) hfresh]
        rfl
  · intro v hv
    obtain ⟨q, hq, hqid⟩ := hstored v hv
    exact ⟨q, List.mem_append_left _ hq, hqid⟩

/-- `deleteQuestion` preserves the ledger invariant: it removes the question
together with all votes keyed to it, leaving every other question's counts
untouched. -/
lemma deleteQuestion_preserves_inv (db : DB) (qid : Nat) (hinv : LedgerInv db) :
    LedgerInv (deleteQuestion db qid) := by
  obtain ⟨hled, hpk, hval, hstored⟩ := hinv
  refine ⟨?_, ?_, ?_, ?_⟩
  · intro q hq
    have hqmem : q ∈ db.questions := List.mem_of_mem_filter hq
    have hqid : ¬ q.id = qid := by
      have := List.of_mem_filter hq
      simpa using this
    obtain ⟨hup, hdown⟩ := hled q hqmem
    constructor
    · rw [hup]
      show _ = ((countVotes (db.votes.filter (fun r => ¬ r.question_id = qid))
          q.id 1 : Nat) : Int)
      rw [countVotes_delete_ne db.votes qid q.id 1 hqid]
    · rw [hdown]
      show _ = ((countVotes (db.votes.filter (fun r => ¬ r.question_id = qid))
          q.id (-1) : Nat) : Int)
      rw [countVotes_delete_ne db.votes qid q.id (-1) hqid]
  · exact List.Pairwise.filter _ hpk
  · intro v hv
    exact hval v (List.mem_of_mem_filter hv)
  · intro v hv
    have hvmem : v ∈ db.votes := List.mem_of_mem_filter hv
    have hvid : ¬ v.question_id = qid := by
      have := List.of_mem_filter hv
      simpa using this
    obtain ⟨q, hq, hqid⟩ := hstored v hvmem
    have hqne : ¬ q.id = qid := by
      rw [hqid]
      exact hvid
    refine ⟨q, ?_, hqid⟩
    exact List.mem_filter.mpr ⟨hq, by simpa using hqne⟩

lemma addVote_none_eq (db : DB) (u qid : Nat) (b : Bool)
    (hf : findVote db u qid = none) :
    (addVote db u qid b).questions
        = bumpCounters db.questions qid (upDelta b) (downDelta b) ∧
    (addVote db u qid b).votes = db.votes ++ [VoteRow.mk u qid (voteOf b)] := by
  cases b <;> constructor <;> simp [addVote, hf, upDelta, downDelta, voteOf]

lemma addVote_flip_votes (db : DB) (u qid : Nat) (b : Bool) (r : VoteRow)
    (hf : findVote db u qid = some r)
    (hdiff : ¬ r.vote = (if b then (1 : Int) else -1)) :
    (addVote db u qid b).votes = setVote db.votes u qid (voteOf b) := by
  cases b with
  | false =>
    have hd : ¬ r.vote = (-1 : Int) := by simpa using hdiff
    simp [addVote, hf, hd, voteOf]
  | true =>
    have hd : ¬ r.vote = (1 : Int) := by simpa using hdiff
    simp [addVote, hf, hd, voteOf]

lemma find?_votes_decomp (vs : List VoteRow) (u qid : Nat) (r : VoteRow)
    (h : vs.find? (fun x => x.user_id = u ∧ x.question_id = qid) = some r) :
    ∃ l1 l2, vs = l1 ++ r :: l2 ∧
      ∀ x ∈ l1, ¬ (x.user_id = u ∧ x.question_id = qid) := by
  induction vs with
  | nil => cases h
  | cons a rest ih =>
    by_cases ha : a.user_id = u ∧ a.question_id = qid
    · rw [List.find?_cons_of_pos _ (by simpa using ha)] at h
      have har : a = r := Option.some.inj h
      subst har
      exact ⟨[], rest, rfl, by intro x hx; cases hx⟩
    · rw [List.find?_cons_of_neg _ (by simpa using ha)] at h
      obtain ⟨l1, l2, heq, hnone⟩ := ih h
      refine ⟨a :: l1, l2, by rw [List.cons_append, heq], ?_⟩
      intro x hx
      rcases List.mem_cons.mp hx with hxa | hxl
      · rw [hxa]
        exact ha
      · exact hnone x hxl

lemma setVote_decomp (l1 l2 : List VoteRow) (r : VoteRow) (u qid : Nat) (w : Int)
    (hr : r.user_id = u ∧ r.question_id = qid)
    (h1 : ∀ x ∈ l1, ¬ (x.user_id = u ∧ x.question_id = qid))
    (h2 : ∀ x ∈ l2, ¬ (x.user_id = u ∧ x.question_id = qid)) :
    setVote (l1 ++ r :: l2) u qid w = l1 ++ { r with vote := w } :: l2 := by
  unfold setVote
  rw [List.map_append, List.map_cons]
  have hmap : ∀ (l : List VoteRow),
      (∀ x ∈ l, ¬ (x.user_id = u ∧ x.question_id = qid)) →
      l.map (fun x =>
        if x.user_id = u ∧ x.question_id = qid then { x with vote := w } else x) = l := by
    intro l hl
    induction l with
    | nil => rfl
    | cons a t iht =>
      rw [List.map_cons, if_neg (hl a (List.mem_cons_self a t)),
        iht (fun x hx => hl x (List.mem_cons_of_mem a hx))]
  rw [hmap l1 h1, hmap l2 h2, if_pos hr]

lemma countVotes_cons (r : VoteRow) (vs : List VoteRow) (qid : Nat) (v : Int) :
    countVotes (r :: vs) qid v
      = (if r.question_id = qid ∧ r.vote = v then 1 else 0) + countVotes vs qid v := by
  unfold countVotes
  by_cases h : r.question_id = qid ∧ r.vote = v
  · rw [if_pos h, List.filter_cons_of_pos (by simpa using h), List.length_cons]
    omega
  · rw [if_neg h, List.filter_cons_of_neg (by simpa using h)]
    omega

lemma countVotes_append (vs ws : List VoteRow) (qid : Nat) (v : Int) :
    countVotes (vs ++ ws) qid v = countVotes vs qid v + countVotes ws qid v := by
  unfold countVotes
  rw [List.filter_append, List.length_append]

lemma countVotes_decomp (l1 l2 : List VoteRow) (x : VoteRow) (qid' : Nat) (v : Int) :
    countVotes (l1 ++ x :: l2) qid' v
      = countVotes l1 qid' v + (if x.question_id = qid' ∧ x.vote = v then 1 else 0)
        + countVotes l2 qid' v := by
  rw [countVotes_append, countVotes_cons]
  omega

lemma setVoteRow_user (x : VoteRow) (u qid : Nat) (w : Int) :
    ((if x.user_id = u ∧ x.question_id = qid then { x with vote := w }
      else x) : VoteRow).user_id = x.user_id := by
  by_cases h : x.user_id = u ∧ x.question_id = qid
  · rw [if_pos h]
  · rw [if_neg h]

lemma setVoteRow_question (x : VoteRow) (u qid : Nat) (w : Int) :
    ((if x.user_id = u ∧ x.question_id = qid then { x with vote := w }
      else x) : VoteRow).question_id = x.question_id := by
  by_cases h : x.user_id = u ∧ x.question_id = qid
  · rw [if_pos h]
  · rw [if_neg h]

/-- `addVote` preserves the ledger invariant when the vote targets a stored
question. -/
lemma addVote_preserves_inv (db : DB) (u qid : Nat) (b : Bool)
    (hinv : LedgerInv db) (htarget : ∃ q ∈ db.questions, q.id = qid) :
    LedgerInv (addVote db u qid b) := by
  obtain ⟨hled, hpk, hval, hstored⟩ := hinv
  cases hf : findVote db u qid with
  | none =>
    obtain ⟨hqs, hvs⟩ := addVote_none_eq db u qid b hf
    have hnokey : ∀ x ∈ db.votes, ¬ (x.user_id = u ∧ x.question_id = qid) := by
      intro x hx hk
      have h1 := List.find?_eq_none.mp hf x hx
      exact h1 (by simpa using hk)
    have hcount : ∀ (id' : Nat) (v : Int),
        countVotes (addVote db u qid b).votes id' v
          = countVotes db.votes id' v + (if qid = id' ∧ voteOf b = v then 1 else 0) := by
      intro id' v
      rw [hvs, countVotes_append_single]
    refine ⟨?_, ?_, ?_, ?_⟩
    · intro q' hq'
      rw [hqs] at hq'
      obtain ⟨q, hq, hfq⟩ := List.mem_map.mp hq'
      obtain ⟨hup, hdown⟩ := hled q hq
      rw [← hfq]
      by_cases hid : q.id = qid
      · rw [if_pos hid]
        have hc1 := hcount q.id 1
        have hc2 := hcount q.id (-1)
        rw [hid] at hup hdown hc1 hc2 ⊢
        constructor
        · show q.thumbs_up + upDelta b = (countVotes (addVote db u qid b).votes qid 1 : Int)
          rw [hc1, hup]
          cases b <;> simp [upDelta, voteOf]
        · show q.thumbs_down + downDelta b
            = (countVotes (addVote db u qid b).votes qid (-1) : Int)
          rw [hc2, hdown]
          cases b <;> simp [downDelta, voteOf]
      · rw [if_neg hid]
        have hc1 := hcount q.id 1
        have hc2 := hcount q.id (-1)
        have hne : ¬ qid = q.id := fun h => hid h.symm
        rw [if_neg (by rintro ⟨h1, -⟩; exact hne h1)] at hc1
        rw [if_neg (by rintro ⟨h1, -⟩; exact hne h1)] at hc2
        constructor
        · rw [hup, hc1]
          simp
        · rw [hdown, hc2]
          simp
    · rw [hvs]
      unfold VotesPK at hpk ⊢
      rw [List.pairwise_append]
      refine ⟨hpk, List.pairwise_singleton _ _, ?_⟩
      intro a ha x hx
      rw [List.mem_singleton.mp hx]
      rintro ⟨h1, h2⟩
      exact hnokey a ha ⟨h1, h2⟩
    · rw [hvs]
      intro v hv
      rcases List.mem_append.mp hv with hold | hnew
      · exact hval v hold
      · rw [List.mem_singleton.mp hnew]
        cases b
        · exact Or.inr rfl
        · exact Or.inl rfl
    · intro v hv
      rw [hvs] at hv
      rw [hqs]
      rcases List.mem_append.mp hv with hold | hnew
      · exact exists_id_bump _ _ _ _ _ (hstored v hold)
      · rw [List.mem_singleton.mp hnew]
        exact exists_id_bump _ _ _ _ _ htarget
  | some r =>
    by_cases hsame : r.vote = (if b then (1 : Int) else -1)
    · rw [addVote_same_eq db u qid b r hf hsame]
      exact ⟨hled, hpk, hval, hstored⟩
    · obtain ⟨l1, l2, hdecomp, hl1⟩ := find?_votes_decomp db.votes u qid r hf
      have hrkey : r.user_id = u ∧ r.question_id = qid := by
        have h1 := List.find?_some hf
        simpa using h1
      have hl2 : ∀ x ∈ l2, ¬ (x.user_id = u ∧ x.question_id = qid) := by
        have hpk' : VotesPK (l1 ++ r :: l2) := by
          rw [← hdecomp]
          exact hpk
        have hcross := (List.pairwise_append.mp hpk').2.1
        have hr2 := (List.pairwise_cons.mp hcross).1
        rintro x hx ⟨hxu, hxq⟩
        exact hr2 x hx ⟨by rw [hrkey.1, hxu], by rw [hrkey.2, hxq]⟩
      have hvs : (addVote db u qid b).votes = l1 ++ { r with vote := voteOf b } :: l2 := by
        rw [addVote_flip_votes db u qid b r hf hsame, hdecomp,
          setVote_decomp l1 l2 r u qid (voteOf b) hrkey hl1 hl2]
      have hqs := addVote_flip_questions db u qid b r hf hsame
      have hrmem : r ∈ db.votes := by
        rw [hdecomp]
        exact List.mem_append_right _ (List.mem_cons_self r l2)
      have hrv : r.vote = voteOf (!b) := by
        rcases hval r hrmem with h1 | h1 <;> cases b <;> simp_all [voteOf]
      have hcount : ∀ (id' : Nat) (v : Int),
          countVotes (addVote db u qid b).votes id' v
            + (if qid = id' ∧ r.vote = v then 1 else 0)
          = countVotes db.votes id' v + (if qid = id' ∧ voteOf b = v then 1 else 0) := by
        intro id' v
        rw [hvs, hdecomp, countVotes_decomp, countVotes_decomp]
        have e1 : (({ r with vote := voteOf b } : VoteRow).question_id = id'
            ∧ ({ r with vote := voteOf b } : VoteRow).vote = v)
            = (qid = id' ∧ voteOf b = v) := by
          show (r.question_id = id' ∧ voteOf b = v) = _
          rw [hrkey.2]
        have e2 : (r.question_id = id' ∧ r.vote = v) = (qid = id' ∧ r.vote = v) := by
          rw [hrkey.2]
        simp only [e1, e2]
        omega
      refine ⟨?_, ?_, ?_, ?_⟩
      · intro q' hq'
        rw [hqs] at hq'
        obtain ⟨q, hq, hfq⟩ := List.mem_map.mp hq'
        obtain ⟨hup, hdown⟩ := hled q hq
        rw [← hfq]
        by_cases hid : q.id = qid
        · rw [if_pos hid]
          have hc1 := hcount q.id 1
          have hc2 := hcount q.id (-1)
          rw [hid] at hup hdown hc1 hc2 ⊢
          constructor
          · show q.thumbs_up + (if b then 1 else -1)
              = (countVotes (addVote db u qid b).votes qid 1 : Int)
            rw [hup]
            cases b
            · have hr1 : r.vote = 1 := by simpa [voteOf] using hrv
              rw [if_pos ⟨rfl, hr1⟩, if_neg (by simp [voteOf])] at hc1
              rw [if_neg (by simp)]
              omega
            · have hr1 : r.vote = -1 := by simpa [voteOf] using hrv
              rw [if_neg (by simp [voteOf, hr1]), if_pos ⟨rfl, by simp [voteOf]⟩] at hc1
              rw [if_pos rfl]
              omega
          · show q.thumbs_down + (if b then -1 else 1)
              = (countVotes (addVote db u qid b).votes qid (-1) : Int)
            rw [hdown]
            cases b
            · have hr1 : r.vote = 1 := by simpa [voteOf] using hrv
              rw [if_neg (by simp [voteOf, hr1]), if_pos ⟨rfl, by simp [voteOf]⟩] at hc2
              rw [if_neg (by simp)]
              omega
            · have hr1 : r.vote = -1 := by simpa [voteOf] using hrv
              rw [if_pos ⟨rfl, hr1⟩, if_neg (by simp [voteOf])] at hc2
              rw [if_pos rfl]
              omega
        · rw [if_neg hid]
          have hc1 := hcount q.id 1
          have hc2 := hcount q.id (-1)
          have hne : ¬ qid = q.id := fun h => hid h.symm
          rw [if_neg (by rintro ⟨h1, -⟩; exact hne h1),
            if_neg (by rintro ⟨h1, -⟩; exact hne h1)] at hc1
          rw [if_neg (by rintro ⟨h1, -⟩; exact hne h1),
            if_neg (by rintro ⟨h1, -⟩; exact hne h1)] at hc2
          constructor
          · rw [hup]
            congr 1
            omega
          · rw [hdown]
            congr 1
            omega
      · rw [addVote_flip_votes db u qid b r hf hsame]
        unfold VotesPK at hpk ⊢
        unfold setVote
        rw [List.pairwise_map]
        refine hpk.imp ?_
        intro a c hr hc
        rw [setVoteRow_user, setVoteRow_user, setVoteRow_question, setVoteRow_question] at hc
        exact hr hc
      · rw [addVote_flip_votes db u qid b r hf hsame]
        intro v hv
        obtain ⟨x, hx, hfx⟩ := List.mem_map.mp hv
        rw [← hfx]
        by_cases hk : x.user_id = u ∧ x.question_id = qid
        · rw [if_pos hk]
          show voteOf b = 1 ∨ voteOf b = -1
          cases b
          · exact Or.inr rfl
          · exact Or.inl rfl
        · rw [if_neg hk]
          exact hval x hx
      · intro v hv
        rw [addVote_flip_votes db u qid b r hf hsame] at hv
        obtain ⟨x, hx, hfx⟩ := List.mem_map.mp hv
        rw [hqs, ← hfx, setVoteRow_question]
        exact exists_id_bump _ _ _ _ _ (hstored x hx)

/-- C10: assuming votes only target stored questions, every stored
question's thumbs_up equals its stored approve votes and thumbs_down its
reject votes: the invariant holds for the empty store and a freshly saved
question (0, 0, no votes), and is preserved by every `addVote` onto a stored
question and by every `deleteQuestion`. -/
theorem ledger_consistency_spec :
    LedgerInv { questions := [], votes := [], progress := [] } ∧
    (∀ (db : DB) (key t : String) (opts : List String) (ci : Int),
      LedgerInv db → LedgerInv (saveQuestion db key t opts ci).1) ∧
    (∀ (db : DB) (u qid : Nat) (b : Bool),
      LedgerInv db → (∃ q ∈ db.questions, q.id = qid) →
      LedgerInv (addVote db u qid b)) ∧
    (∀ (db : DB) (qid : Nat), LedgerInv db → LedgerInv (deleteQuestion db qid)) := by
  refine ⟨?_, ?_, ?_, ?_⟩
  · exact ⟨fun q hq => absurd hq (List.not_mem_nil q), List.Pairwise.nil,
      fun v hv => absurd hv (List.not_mem_nil v),
      fun v hv => absurd hv (List.not_mem_nil v)⟩
  · exact saveQuestion_preserves_inv
  · exact addVote_preserves_inv
  · exact deleteQuestion_preserves_inv

/-- Witness for C10 at a concrete input: the invariant survives user 7
upvoting the only question of `dbW`. -/
theorem ledger_consistency_spec_witness :
    LedgerInv (addVote dbW 7 1 true) :=
  ledger_consistency_spec.2.2.1 dbW 7 1 true (by decide) (by decide)

end ARBot
